import Mathlib

/-!
# migrate-v2: state transformation engine and handler chain

A shallow embedding of `cmd/migrate-v2/pipeline.go`, `handlers/parse.go` and
`handlers/formatter.go`.

* Go strings and byte slices holding a JSON document are a type `Text`; the
  third-party JSON libraries (gjson, sjson, pretty, encoding/json) are a record
  `JsonLib Text` of the five calls `TransformState` makes.  `treeLib` is the
  instance in which a text is identified with the JSON value it denotes.
* Go errors are `GoError`; a Go `(value, error)` return is a pair whose second
  component is `none` for a nil error.
* The hcl library and the inherited method `CallNext` are parameters of the handlers.
* Handler objects live on an explicit heap, so `SetNext` is a heap update.
-/

namespace MigrateV2

/-! ## Go errors -/

/-- A Go error value: `errorf` is `fmt.Errorf` without `%w`, `wrapped` is `fmt.Errorf`
with `%w` (the full message together with the wrapped cause). -/
inductive GoError where
  | errorf (msg : String)
  | wrapped (msg : String) (cause : GoError)

/-- The message of an error, `err.Error()`. -/
def GoError.Error : GoError → String
  | .errorf m => m
  | .wrapped m _ => m

/-- The wrapped cause, `errors.Unwrap(err)`. -/
def GoError.Unwrap : GoError → Option GoError
  | .errorf _ => none
  | .wrapped _ c => some c

/-- The call `fmt.Errorf(format + "%w", err)` where `pre` is the formatted text before `%w`. -/
def errorfW (pre : String) (err : GoError) : GoError :=
  .wrapped (pre ++ err.Error) err

/-! ## JSON values and the libraries used by `TransformState` -/

/-- A JSON value.  Objects keep their fields in document order and may repeat a key;
numbers keep their literal text. -/
inductive Json where
  | null
  | bool (b : Bool)
  | num (lit : String)
  | str (s : String)
  | arr (elems : List Json)
  | obj (fields : List (String × Json))

/-- The accessors of a `gjson.Result` that `TransformState` and the transformers read:
`Exists()`, `String()` (field `Str`), `Array()` and the value itself. -/
structure Result where
  Exists : Bool
  Str : String
  Array : List Json
  Value : Option Json

/-- The five library calls of `TransformState` on document texts:
`gjson.Get`, `sjson.Set` and `sjson.Delete` with the error discarded (as the source
discards it), `pretty.Pretty`, and `json.Unmarshal` into a `map[string]interface{}`.
`Unmarshal s = some kvs` stands for `err == nil`; `kvs` lists the decoded map in the
order `range` visits it, each value as the JSON that `sjson.Set` writes for it. -/
structure JsonLib (Text : Type) where
  Get : Text → String → Result
  Set : Text → String → Json → Text
  Delete : Text → String → Text
  Pretty : Text → Text
  Unmarshal : String → Option (List (String × Json))

/-! ## Registry -/

/-- Modelled from the spec: `interfaces.ResourceTransformer` (its package is not part of the
sources at hand): a strategy with a self-reported resource type and a state-mutation
operation taking the entry and its path and returning `(replacement, error)`; the empty
replacement is the delete sentinel.  The tree-mutation operation is not needed here. -/
structure ResourceTransformer where
  ResourceType : String
  TransformState : Result → String → String × Option GoError

/-- Modelled from the spec: `registry.StrategyRegistry` (its package is not part of the
sources at hand): a table from resource-type name to one transformer. -/
structure StrategyRegistry where
  strategies : List (String × ResourceTransformer)

/-- Modelled from the spec: a fresh, empty registry. -/
def NewStrategyRegistry : StrategyRegistry := ⟨[]⟩

/-- Modelled from the spec: `Register` stores the transformer under its self-reported key;
a later registration for the same key wins. -/
def StrategyRegistry.Register (r : StrategyRegistry) (t : ResourceTransformer) :
    StrategyRegistry :=
  ⟨(t.ResourceType, t) :: r.strategies⟩

/-- Modelled from the spec: `Find` is an exact-string lookup that returns "not found"
rather than failing. -/
def StrategyRegistry.Find (r : StrategyRegistry) (typeName : String) :
    Option ResourceTransformer :=
  r.strategies.lookup typeName

/-! ## Pipeline -/

/-- The struct `PipelineOptions`. -/
structure PipelineOptions where
  UseStructMode : Bool := false
  DryRun : Bool := false
  IsState : Bool := false

/-- The struct `Pipeline`; `handler` is the address of the entry handler (nil is `none`). -/
structure Pipeline where
  handler : Option Nat
  registry : Option StrategyRegistry
  dryRun : Bool
  isState : Bool

/-- Modelled from the spec: `p.registry.Find(resourceType)`; a pipeline that holds no
registry has no registered rule. -/
def Pipeline.find (p : Pipeline) (typeName : String) : Option ResourceTransformer :=
  match p.registry with
  | some r => r.Find typeName
  | none => none

/-- The path `fmt.Sprintf("resources.%d", i)`. -/
def resourcePathOf (i : Nat) : String := "resources." ++ toString i

/-- One iteration of the loop of `TransformState` (pipeline.go:138-163) at index `i` on the
current document `result`: the next document, or the error the function returns with. -/
def visit {Text : Type} (lib : JsonLib Text) (p : Pipeline) (result : Text) (i : Nat) :
    Except GoError Text :=
  let resourcePath := resourcePathOf i
  let resourceType := (lib.Get result (resourcePath ++ ".type")).Str
  match p.find resourceType with
  | none => .ok result
  | some transformer =>
    let resourceJSON := lib.Get result resourcePath
    match transformer.TransformState resourceJSON resourcePath with
    | (_, some err) =>
      .error (errorfW ("failed to transform " ++ resourceType ++ " state: ") err)
    | (transformed, none) =>
      if transformed = "" then
        .ok (lib.Delete result resourcePath)
      else
        match lib.Unmarshal transformed with
        | some transformedMap =>
          .ok (transformedMap.foldl
            (fun r kv => lib.Set r (resourcePath ++ "." ++ kv.1) kv.2) result)
        | none => .ok result

/-- The loop `for i := len(resourcesArray) - 1; i >= 0; i--`: `stateLoop lib p n result`
visits the indices `n-1, ..., 0` in that order. -/
def stateLoop {Text : Type} (lib : JsonLib Text) (p : Pipeline) : Nat → Text → Except GoError Text
  | 0, result => .ok result
  | i + 1, result =>
    match visit lib p result i with
    | .error e => .error e
    | .ok r => stateLoop lib p i r

/-- The method `Pipeline.TransformState` (pipeline.go:121-169): the returned
`([]byte, error)` pair. -/
def Pipeline.TransformState {Text : Type} (lib : JsonLib Text) (p : Pipeline) (content : Text)
    (_filename : String) : Option Text × Option GoError :=
  if !p.isState then
    (none, some (.errorf "pipeline not configured for state transformation"))
  else
    let jsonStr := content
    let resources := lib.Get jsonStr "resources"
    if !resources.Exists then
      (some content, none)
    else
      let resourcesArray := resources.Array
      match stateLoop lib p resourcesArray.length jsonStr with
      | .error e => (none, some e)
      | .ok result => (some (lib.Pretty result), none)

/-! ## The tree instance of the JSON libraries

A document text is identified with the JSON value it denotes, so formatting is invisible
and `pretty.Pretty` is the identity.  Paths are the strings the source builds; they are
split at dots as gjson and sjson do. -/

/-- Split a path at every dot (`"a..b"` has an empty middle segment). -/
def splitDots : List Char → List (List Char)
  | [] => [[]]
  | c :: cs =>
    if c = '.' then [] :: splitDots cs
    else
      match splitDots cs with
      | [] => [[c]]
      | s :: ss => (c :: s) :: ss

/-- The segments of a path string. -/
def splitPath (path : String) : List String := (splitDots path.data).map String.mk

/-- Characters that gjson or sjson interpret inside a path (wildcards, queries, modifiers,
pipes, escapes, sub-selectors, the force marker). -/
def metaChars : List Char := ['|', '#', '@', '*', '?', '\\', '!', '[', ':', Char.ofNat 123]

/-- The path fragment this instance interprets: no special character and no empty segment.
A path outside the fragment is left uninterpreted: `Get` finds nothing and `Set`, `Delete`
leave the text as it is. -/
def inFragment (path : String) : Bool :=
  path.data.all (fun c => !metaChars.contains c) && (splitDots path.data).all (fun s => !s.isEmpty)

/-- Decimal value of a digit string continuing from `n`; `none` on a non-digit. -/
def parseDigits : List Char → Nat → Option Nat
  | [], n => some n
  | c :: cs, n =>
    if '0' ≤ c ∧ c ≤ '9' then parseDigits cs (n * 10 + (c.toNat - 48)) else none

/-- The array index gjson reads from a path segment (`parseUint`): a non-empty digit string. -/
def parseUint (s : String) : Option Nat :=
  if s.data.isEmpty then none else parseDigits s.data 0

/-- The number sjson reads from a path segment (`atoui`): a digit string, the empty one
included. -/
def atoui (s : String) : Option Nat := parseDigits s.data 0

/-- JSON string escaping of the characters of a string. -/
def quoteChars : List Char → List Char
  | [] => []
  | c :: cs =>
    if c = '"' then '\\' :: '"' :: quoteChars cs
    else if c = '\\' then '\\' :: '\\' :: quoteChars cs
    else if c = '\n' then '\\' :: 'n' :: quoteChars cs
    else if c = '\t' then '\\' :: 't' :: quoteChars cs
    else if c = '\r' then '\\' :: 'r' :: quoteChars cs
    else c :: quoteChars cs

/-- A JSON string literal. -/
def quote (s : String) : String := "\"" ++ String.mk (quoteChars s.data) ++ "\""

mutual
/-- The compact text of a value (the raw text of a value in a document without
insignificant whitespace). -/
def Json.render : Json → String
  | .null => "null"
  | .bool true => "true"
  | .bool false => "false"
  | .num lit => lit
  | .str s => quote s
  | .arr es => "[" ++ renderElems es ++ "]"
  | .obj fs => "\x7b" ++ renderFields fs ++ "\x7d"
/-- The elements of an array, comma separated. -/
def renderElems : List Json → String
  | [] => ""
  | [e] => e.render
  | e :: es => e.render ++ "," ++ renderElems es
/-- The fields of an object, comma separated. -/
def renderFields : List (String × Json) → String
  | [] => ""
  | [(k, v)] => quote k ++ ":" ++ v.render
  | (k, v) :: fs => quote k ++ ":" ++ v.render ++ "," ++ renderFields fs
end

/-- The method `Result.String()`: empty for null, the string itself for a string, the raw
text otherwise (gjson prints a number that is not an integer literal from its float64
value; here the literal stands for that text). -/
def valueString : Json → String
  | .null => ""
  | .bool true => "true"
  | .bool false => "false"
  | .num lit => lit
  | .str s => s
  | j => j.render

/-- The method `Result.Array()`: the elements of an array, nothing for null, and the value
itself as the only element otherwise. -/
def valueArray : Json → List Json
  | .null => []
  | .arr es => es
  | j => [j]

/-- The `gjson.Result` of a lookup that found `v`, or found nothing. -/
def resultOf : Option Json → Result
  | none => { Exists := false, Str := "", Array := [], Value := none }
  | some j => { Exists := true, Str := valueString j, Array := valueArray j, Value := some j }

/-- One step of `gjson.Get`: the first field with that key of an object, the element at
that index of an array. -/
def getChild : Json → String → Option Json
  | .obj fs, k => fs.lookup k
  | .arr es, k =>
    match parseUint k with
    | some n => es[n]?
    | none => none
  | _, _ => none

/-- The value at a path, segment by segment. -/
def getPath : Json → List String → Option Json
  | j, [] => some j
  | j, k :: ks =>
    match getChild j k with
    | some w => getPath w ks
    | none => none

/-- Replace the value of the first field with key `k`. -/
def replaceFirst (k : String) (w : Json) : List (String × Json) → List (String × Json)
  | [] => []
  | (k1, v) :: fs => if k == k1 then (k1, w) :: fs else (k1, v) :: replaceFirst k w fs

/-- Remove the first field with key `k`. -/
def eraseFirst (k : String) : List (String × Json) → List (String × Json)
  | [] => []
  | (k1, v) :: fs => if k == k1 then fs else (k1, v) :: eraseFirst k fs

/-- Put `w` in the place of the child that `getChild j k` found. -/
def replaceChild (j : Json) (k : String) (w : Json) : Json :=
  match j with
  | .obj fs => .obj (replaceFirst k w fs)
  | .arr es =>
    match parseUint k with
    | some n => .arr (es.set n w)
    | none => .arr es
  | other => other

/-- What sjson builds for the rest of a path that does not exist yet (`appendBuild`): an
array padded with nulls under a numeric segment, an object otherwise. -/
def buildVal : List String → Json → Json
  | [], v => v
  | k :: ks, v =>
    match atoui k with
    | some n => .arr (List.replicate n .null ++ [buildVal ks v])
    | none => if k = "-1" then .arr [buildVal ks v] else .obj [(k, buildVal ks v)]

/-- The branch of sjson for a segment that `gjson.Get` did not find: append the field to an
object, pad and append to an array (an error, `none`, for a non-numeric segment other than
`-1`), and replace a scalar by a fresh object or array. -/
def createChild (j : Json) (k : String) (b : Json) : Option Json :=
  match j with
  | .obj fs => some (.obj (fs ++ [(k, b)]))
  | .arr es =>
    match atoui k with
    | some n => some (.arr (es ++ List.replicate (n - es.length) .null ++ [b]))
    | none => if k = "-1" then some (.arr (es ++ [b])) else none
  | _ =>
    match atoui k with
    | some n => some (.arr (List.replicate n .null ++ [b]))
    | none => some (.obj [(k, b)])

/-- The value after `sjson.Set` along a path; `none` when sjson reports an error. -/
def setPath : Json → List String → Json → Option Json
  | _, [], v => some v
  | j, k :: ks, v =>
    match getChild j k with
    | some w => (setPath w ks v).map (replaceChild j k)
    | none => createChild j k (buildVal ks v)

/-- Remove the child `getChild j k` found; `none` when there is none. -/
def removeChild (j : Json) (k : String) : Option Json :=
  match j with
  | .obj fs => if (fs.lookup k).isSome then some (.obj (eraseFirst k fs)) else none
  | .arr es =>
    match parseUint k with
    | some n => if n < es.length then some (.arr (es.eraseIdx n)) else none
    | none => none
  | _ => none

/-- In a deletion sjson reads the segment `-1` on a non-empty array as its last index. -/
def delKey (j : Json) (k : String) : String :=
  match j with
  | .arr es => if k = "-1" ∧ 0 < es.length then toString (es.length - 1) else k
  | _ => k

/-- The value after `sjson.Delete` along a path; `none` when nothing is there to delete. -/
def deletePath : Json → List String → Option Json
  | _, [] => none
  | j, [k] => removeChild j (delKey j k)
  | j, k :: k2 :: ks =>
    match getChild j (delKey j k) with
    | some w => (deletePath w (k2 :: ks)).map (replaceChild j (delKey j k))
    | none => none

/-- The call `gjson.Get(text, path)`. -/
def treeGet (doc : Json) (path : String) : Result :=
  if inFragment path then resultOf (getPath doc (splitPath path)) else resultOf none

/-- The call `sjson.Set(text, path, value)` with the error discarded: on an error sjson
returns the text it was given. -/
def treeSet (doc : Json) (path : String) (v : Json) : Json :=
  if inFragment path then (setPath doc (splitPath path) v).getD doc else doc

/-- The call `sjson.Delete(text, path)` with the error discarded. -/
def treeDelete (doc : Json) (path : String) : Json :=
  if inFragment path then (deletePath doc (splitPath path)).getD doc else doc

/-- The libraries on texts identified with their values; `decode` is `json.Unmarshal`. -/
def treeLib (decode : String → Option (List (String × Json))) : JsonLib Json where
  Get := treeGet
  Set := treeSet
  Delete := treeDelete
  Pretty := id
  Unmarshal := decode

/-! ### What one entry goes through

The effect of `TransformState` on a single entry of the "resources" array, read off the
document-level operations above; the theorems relate the loop to these. -/

/-- The declared type of an entry: `gjson.Get(result, path + ".type").String()`. -/
def typeOf (e : Json) : String := (resultOf (getChild e "type")).Str

/-- The entry after `sjson.Set(result, path + "." + key, value)`. -/
def mergeField (e : Json) (key : String) (v : Json) : Json :=
  if inFragment key then (setPath e (splitPath key) v).getD e else e

/-- The entry after the replacement fields are written one by one. -/
def mergeFields (e : Json) (kvs : List (String × Json)) : Json :=
  kvs.foldl (fun e1 kv => mergeField e1 kv.1 kv.2) e

/-- What the transformer registered for the entry's type returns for the entry at index `i`
(`none` when no transformer is registered). -/
def transformerOutput (reg : StrategyRegistry) (i : Nat) (e : Json) :
    Option (String × Option GoError) :=
  (reg.Find (typeOf e)).map (fun t => t.TransformState (resultOf (some e)) (resourcePathOf i))

/-- The entry at index `i` is deleted: its transformer returns the empty string and no error. -/
def isDeleted (reg : StrategyRegistry) (i : Nat) (e : Json) : Bool :=
  match transformerOutput reg i e with
  | some (s, none) => s == ""
  | _ => false

/-- The error, if any, that the transformer of the entry at index `i` returns. -/
def failure (reg : StrategyRegistry) (i : Nat) (e : Json) : Option GoError :=
  match transformerOutput reg i e with
  | some (_, some err) => some err
  | _ => none

/-- A surviving entry after its visit: merged with the decoded replacement, or as it was
when no transformer is registered or the replacement does not decode. -/
def kept (decode : String → Option (List (String × Json))) (reg : StrategyRegistry) (i : Nat)
    (e : Json) : Json :=
  match transformerOutput reg i e with
  | some (s, none) =>
    match decode s with
    | some kvs => mergeFields e kvs
    | none => e
  | _ => e

/-- The entries that survive, from index `start` on, in document order. -/
def survivors (decode : String → Option (List (String × Json))) (reg : StrategyRegistry) :
    Nat → List Json → List Json
  | _, [] => []
  | start, e :: es =>
    if isDeleted reg start e then survivors decode reg (start + 1) es
    else kept decode reg start e :: survivors decode reg (start + 1) es

/-- The number of deleted entries, from index `start` on. -/
def deletedCount (reg : StrategyRegistry) : Nat → List Json → Nat
  | _, [] => 0
  | start, e :: es =>
    (if isDeleted reg start e then 1 else 0) + deletedCount reg (start + 1) es

/-- The error the loop stops with: that of the failing entry with the highest index. -/
def firstFailure (reg : StrategyRegistry) : Nat → List Json → Option GoError
  | _, [] => none
  | start, e :: es =>
    match firstFailure reg (start + 1) es with
    | some err => some err
    | none =>
      (failure reg start e).map
        (errorfW ("failed to transform " ++ typeOf e ++ " state: "))

/-- The document with the value of its first "resources" field replaced. -/
def withResources (fs : List (String × Json)) (es : List Json) : Json :=
  .obj (replaceFirst "resources" (.arr es) fs)

/-- A field name without any path syntax: non-empty, without a dot and without any of the
special characters of `metaChars`. -/
def plainKey (k : String) : Bool :=
  inFragment k && !k.data.contains '.'

/-- Write field `k` of an object: replace the value of the first field with that key, or
append the field when the object has none. -/
def upsert (k : String) (v : Json) (fs : List (String × Json)) : List (String × Json) :=
  if (fs.lookup k).isSome then replaceFirst k v fs else fs ++ [(k, v)]

/-! ## Handler chain

The hcl library is a record of the three calls the handlers make.  The method `CallNext`
that a handler inherits from `interfaces.BaseHandler` is a parameter `callNext` of its
`Handle`; the context, a pointer in Go, is threaded through as a value. -/

/-- The severity of an hcl diagnostic. -/
inductive DiagnosticSeverity where
  | DiagError
  | DiagWarning
  deriving DecidableEq

/-- An `hcl.Diagnostic`; `Subject` is the printed source range. -/
structure Diagnostic where
  Severity : DiagnosticSeverity
  Summary : String
  Detail : String
  Subject : String
  deriving DecidableEq

/-- The message of one diagnostic, `fmt.Sprintf("%s: %s; %s", Subject, Summary, Detail)`. -/
def Diagnostic.Error (d : Diagnostic) : String :=
  d.Subject ++ ": " ++ d.Summary ++ "; " ++ d.Detail

/-- The method `Diagnostics.HasErrors`: some diagnostic has severity `DiagError`. -/
def HasErrors (diags : List Diagnostic) : Bool :=
  diags.any (fun d => d.Severity == .DiagError)

/-- The method `Diagnostics.Error`: the message of the first diagnostic, followed by the
number of the others when there are several. -/
def DiagnosticsError : List Diagnostic → String
  | [] => "no diagnostics"
  | [d] => d.Error
  | d :: rest => d.Error ++ ", and " ++ toString rest.length ++ " other diagnostic(s)"

/-- The text `Diagnostics.Error` puts after the first message: nothing for a single
diagnostic, the count of the others otherwise. -/
def othersSuffix (rest : List Diagnostic) : String :=
  match rest with
  | [] => ""
  | _ :: _ => ", and " ++ toString rest.length ++ " other diagnostic(s)"

/-- The calls into hcl: `hclwrite.ParseConfig(content, filename, hcl.InitialPos)`,
`file.Bytes()` and `hclwrite.Format(bytes)`. -/
structure HclLib (Bytes File : Type) where
  ParseConfig : Bytes → String → Option File × List Diagnostic
  FileBytes : File → Bytes
  Format : Bytes → Bytes

/-- Modelled from the spec: `interfaces.TransformContext` (its package is not part of the
sources at hand): content, name, optional tree, diagnostics, metadata and dry-run flag. -/
structure TransformContext (Bytes File : Type) where
  Content : Bytes
  Filename : String
  AST : Option File
  Diagnostics : List Diagnostic
  Metadata : List (String × String)
  DryRun : Bool

/-- What `Handle` returns: the context and the error. -/
abbrev Handled (Bytes File : Type) := TransformContext Bytes File × Option GoError

/-- Modelled from the spec: `BaseHandler.CallNext` (package `interfaces` is not part of the
sources at hand): the `Handle` of the successor, and a no-op success when there is no
successor.  `next` is what the successor's `Handle` computes, `none` without successor. -/
def CallNext {Bytes File : Type}
    (next : Option (TransformContext Bytes File → Handled Bytes File))
    (ctx : TransformContext Bytes File) : Handled Bytes File :=
  match next with
  | some handle => handle ctx
  | none => (ctx, none)

/-- The method `ParseHandler.Handle` (handlers/parse.go:23-34). -/
def ParseHandler.Handle {Bytes File : Type} (hcl : HclLib Bytes File)
    (callNext : TransformContext Bytes File → Handled Bytes File)
    (ctx : TransformContext Bytes File) : Handled Bytes File :=
  let (file, diags) := hcl.ParseConfig ctx.Content ctx.Filename
  let ctx1 := { ctx with Diagnostics := ctx.Diagnostics ++ diags }
  if HasErrors diags then
    (ctx1, some (.errorf ("failed to parse HCL: " ++ DiagnosticsError diags)))
  else
    callNext { ctx1 with AST := file }

/-- The method `FormatterHandler.Handle` (handlers/formatter.go:22-32). -/
def FormatterHandler.Handle {Bytes File : Type} (hcl : HclLib Bytes File)
    (callNext : TransformContext Bytes File → Handled Bytes File)
    (ctx : TransformContext Bytes File) : Handled Bytes File :=
  match ctx.AST with
  | none => (ctx, some (.errorf "AST is nil - cannot format"))
  | some ast =>
    let bytes := hcl.FileBytes ast
    let formatted := hcl.Format bytes
    callNext { ctx with Content := formatted }

/-! ## Builder

Handlers are objects with a mutable successor; the heap is the list of the handlers
allocated so far and an address is a position in it. -/

/-- The stage a handler implements. -/
inductive Stage where
  | preprocess
  | parse
  | transform
  | format
  deriving DecidableEq

/-- The concrete handler types the builder creates, with what their constructors receive. -/
inductive HandlerKind where
  | PreprocessHandler (reg : StrategyRegistry)
  | ParseHandler
  | ResourceTransformHandler (reg : StrategyRegistry)
  | StructTransformHandler (structReg : StrategyRegistry)
  | FormatterHandler

/-- The stage of a handler type. -/
def HandlerKind.stage : HandlerKind → Stage
  | .PreprocessHandler _ => .preprocess
  | .ParseHandler => .parse
  | .ResourceTransformHandler _ => .transform
  | .StructTransformHandler _ => .transform
  | .FormatterHandler => .format

/-- A handler object: its type and the successor held by its `BaseHandler`. -/
structure HandlerObj where
  kind : HandlerKind
  next : Option Nat

/-- The handlers allocated so far. -/
abbrev Heap := List HandlerObj

/-- Allocate a handler without successor; its address is the old heap size. -/
def alloc (heap : Heap) (kind : HandlerKind) : Nat × Heap :=
  (heap.length, heap ++ [{ kind := kind, next := none }])

/-- Modelled from the spec: `BaseHandler.SetNext`: the handler at `a` gets successor `n`. -/
def SetNext (heap : Heap) (a n : Nat) : Heap :=
  match heap[a]? with
  | some o => heap.set a { o with next := some n }
  | none => heap

/-- The successor of the handler at `a`. -/
def nextOf (heap : Heap) (a : Nat) : Option Nat :=
  match heap[a]? with
  | some o => o.next
  | none => none

/-- The stage of the handler at `a`. -/
def stageOf (heap : Heap) (a : Nat) : Option Stage :=
  heap[a]?.map (fun o => o.kind.stage)

/-- The struct `PipelineBuilder`: the addresses of the handlers added, in order. -/
structure PipelineBuilder where
  handlers : List Nat
  registry : Option StrategyRegistry

/-- The function `NewPipelineBuilder`. -/
def NewPipelineBuilder : PipelineBuilder := { handlers := [], registry := none }

/-- What each `With...` method of the builder does with the handler it creates:
`b.handlers = append(b.handlers, NewXHandler(...))`, the new handler being a fresh object
without successor. -/
def PipelineBuilder.addFresh (b : PipelineBuilder) (kind : HandlerKind) (heap : Heap) :
    PipelineBuilder × Heap :=
  let (a, heap1) := alloc heap kind
  ({ b with handlers := b.handlers ++ [a] }, heap1)

/-- The method `WithPreprocessing`. -/
def PipelineBuilder.WithPreprocessing (b : PipelineBuilder) (reg : StrategyRegistry)
    (heap : Heap) : PipelineBuilder × Heap :=
  b.addFresh (.PreprocessHandler reg) heap

/-- The method `WithParsing`. -/
def PipelineBuilder.WithParsing (b : PipelineBuilder) (heap : Heap) : PipelineBuilder × Heap :=
  b.addFresh .ParseHandler heap

/-- The method `WithResourceTransformation`. -/
def PipelineBuilder.WithResourceTransformation (b : PipelineBuilder) (reg : StrategyRegistry)
    (heap : Heap) : PipelineBuilder × Heap :=
  { b with registry := some reg }.addFresh (.ResourceTransformHandler reg) heap

/-- The method `WithStructTransformation`. -/
def PipelineBuilder.WithStructTransformation (b : PipelineBuilder)
    (structReg : StrategyRegistry) (heap : Heap) : PipelineBuilder × Heap :=
  b.addFresh (.StructTransformHandler structReg) heap

/-- The method `WithFormatting`. -/
def PipelineBuilder.WithFormatting (b : PipelineBuilder) (heap : Heap) :
    PipelineBuilder × Heap :=
  b.addFresh .FormatterHandler heap

/-- A sequence of `With...` calls, one per handler type of the list, in order. -/
def PipelineBuilder.addAll : List HandlerKind → PipelineBuilder → Heap → PipelineBuilder × Heap
  | [], b, heap => (b, heap)
  | kind :: kinds, b, heap =>
    let (b1, heap1) := b.addFresh kind heap
    PipelineBuilder.addAll kinds b1 heap1

/-- The method `WithHandler`: the handler is an object the caller already has. -/
def PipelineBuilder.WithHandler (b : PipelineBuilder) (handler : Nat) : PipelineBuilder :=
  { b with handlers := b.handlers ++ [handler] }

/-- The loop of `Build`: `handlers[i].SetNext(handlers[i+1])` for `i` from `0` to
`len - 2`. -/
def linkHandlers : List Nat → Heap → Heap
  | a :: b :: rest, heap => linkHandlers (b :: rest) (SetNext heap a b)
  | _, heap => heap

/-- The method `PipelineBuilder.Build` (pipeline.go:214-226): the pipeline, nil when no
handler was added, and the heap after linking. -/
def PipelineBuilder.Build (b : PipelineBuilder) (heap : Heap) : Option Pipeline × Heap :=
  match b.handlers with
  | [] => (none, heap)
  | first :: _ =>
    (some { handler := some first, registry := b.registry, dryRun := false, isState := false },
      linkHandlers b.handlers heap)

/-- The function `BuildPipelineWithOptions` (pipeline.go:44-85).  `structReg` is the registry
that `RegisterAllStructTransformers` fills in struct mode.  Were `Build` to return nil, the
assignment `pipeline.dryRun = ...` would dereference it; no pipeline is returned then. -/
def BuildPipelineWithOptions (reg : StrategyRegistry) (opts : PipelineOptions)
    (structReg : StrategyRegistry) (heap : Heap) : Option Pipeline × Heap :=
  if opts.IsState then
    (some { handler := none, registry := some reg, dryRun := opts.DryRun, isState := true }, heap)
  else
    let (b1, h1) := NewPipelineBuilder.WithPreprocessing reg heap
    let (b2, h2) := b1.WithParsing h1
    let (b3, h3) :=
      if opts.UseStructMode then b2.WithStructTransformation structReg h2
      else b2.WithResourceTransformation reg h2
    let (b4, h4) := b3.WithFormatting h3
    let (pipeline, h5) := b4.Build h4
    (pipeline.map (fun p => { p with dryRun := opts.DryRun }), h5)

/-- The function `BuildStatePipeline` (pipeline.go:26-31). -/
def BuildStatePipeline (reg : StrategyRegistry) (dryRun : Bool) (structReg : StrategyRegistry)
    (heap : Heap) : Option Pipeline × Heap :=
  BuildPipelineWithOptions reg { DryRun := dryRun, IsState := true } structReg heap

/-- The function `BuildPipelineWithDryRun` (pipeline.go:22-24). -/
def BuildPipelineWithDryRun (reg : StrategyRegistry) (dryRun : Bool)
    (structReg : StrategyRegistry) (heap : Heap) : Option Pipeline × Heap :=
  BuildPipelineWithOptions reg { DryRun := dryRun } structReg heap

/-- The function `BuildPipeline` (pipeline.go:18-20). -/
def BuildPipeline (reg : StrategyRegistry) (structReg : StrategyRegistry) (heap : Heap) :
    Option Pipeline × Heap :=
  BuildPipelineWithOptions reg {} structReg heap

/-- The stages met from address `a` on by following successors, at most `fuel` of them. -/
def chainStages (heap : Heap) : Nat → Option Nat → List Stage
  | 0, _ => []
  | _, none => []
  | fuel + 1, some a =>
    match heap[a]? with
    | some o => o.kind.stage :: chainStages heap fuel o.next
    | none => []


/-! ## Scenarios -/

/-- A decoder that knows one replacement text. -/
def decodeOnly (text : String) (kvs : List (String × Json)) (s : String) :
    Option (List (String × Json)) :=
  if s = text then some kvs else none

/-- A decoder that rejects every text. -/
def decodeNothing (_s : String) : Option (List (String × Json)) := none

/-- A state pipeline over a registry, as `BuildStatePipeline` makes it. -/
def statePipelineOf (reg : StrategyRegistry) : Pipeline :=
  { handler := none, registry := some reg, dryRun := false, isState := true }

/-- A transformer for type `b` that deletes every entry it is given. -/
def deleteB : ResourceTransformer :=
  { ResourceType := "b", TransformState := fun _ _ => ("", none) }

/-- The registry holding only `deleteB`. -/
def deleteBRegistry : StrategyRegistry := NewStrategyRegistry.Register deleteB

/-- An entry with nothing but a type. -/
def entryOfType (t : String) : Json := .obj [("type", .str t)]

/-- The fields of a state document with entries of types `a`, `b`, `c` at indices 0, 1, 2. -/
def abcFields : List (String × Json) :=
  [("version", .num "4"), ("resources", .arr [entryOfType "a", entryOfType "b", entryOfType "c"])]

/-- The three entries of `abcFields`. -/
def abcEntries : List Json := [entryOfType "a", entryOfType "b", entryOfType "c"]


/-- A transformer for type `t` that returns a fixed replacement text. -/
def replaceWith (text : String) : ResourceTransformer :=
  { ResourceType := "t", TransformState := fun _ _ => (text, none) }

/-- The registry holding only `replaceWith text`. -/
def replaceRegistry (text : String) : StrategyRegistry :=
  NewStrategyRegistry.Register (replaceWith text)

/-- The fields of an entry of type `t` with `"old_field": "y"`. -/
def oldEntryFields : List (String × Json) := [("type", .str "t"), ("old_field", .str "y")]

/-- The fields of a state document with that entry alone. -/
def oldFields : List (String × Json) := [("resources", .arr [.obj oldEntryFields])]

/-- The replacement text with the single field `"new_field": "x"`. -/
def newFieldText : String := "\x7b\"new_field\":\"x\"\x7d"

/-- The replacement text with the single field `"a.b": "x"`. -/
def dottedText : String := "\x7b\"a.b\":\"x\"\x7d"


/-- A transformer for `dns_record` that renames the field `foo` of the entry to `data` and
returns the renamed entry as text. -/
def renameFooToData : ResourceTransformer :=
  { ResourceType := "dns_record"
    TransformState := fun r _ =>
      match r.Value with
      | some (.obj efs) =>
        ((Json.obj (efs.map (fun kv => if kv.1 = "foo" then ("data", kv.2) else kv))).render, none)
      | _ => ("null", none) }

/-- The registry holding only `renameFooToData`. -/
def renameRegistry : StrategyRegistry := NewStrategyRegistry.Register renameFooToData

/-- The fields of the entry of the scenario. -/
def dnsEntryFields : List (String × Json) :=
  [("type", .str "dns_record"), ("path", .str "resources.0"), ("foo", .str "bar")]

/-- The fields of the input document of the scenario. -/
def dnsFields : List (String × Json) := [("resources", .arr [.obj dnsEntryFields])]

/-- The fields of the replacement: the entry with `foo` renamed to `data`. -/
def renamedFields : List (String × Json) :=
  [("type", .str "dns_record"), ("path", .str "resources.0"), ("data", .str "bar")]

/-- The text of the replacement. -/
def renamedText : String :=
  "\x7b\"type\":\"dns_record\",\"path\":\"resources.0\",\"data\":\"bar\"\x7d"

/-- The entry after the merge: `data` is added and `foo` is still there. -/
def mergedEntryFields : List (String × Json) :=
  [("type", .str "dns_record"), ("path", .str "resources.0"), ("foo", .str "bar"),
    ("data", .str "bar")]


/-- The replacement text `[1]`: JSON, but not an object. -/
def arrayText : String := "[1]"

/-- The error a failing transformer returns. -/
def boom : GoError := .errorf "boom"

/-- A transformer for type `b` that always fails. -/
def failB : ResourceTransformer :=
  { ResourceType := "b", TransformState := fun _ _ => ("ignored", some boom) }

/-- The registry holding only `failB`. -/
def failBRegistry : StrategyRegistry := NewStrategyRegistry.Register failB

/-- The fields of a document without "resources". -/
def noResourcesFields : List (String × Json) := [("version", .num "4")]


/-- The diagnostic of the sample parser. -/
def sampleDiag : Diagnostic :=
  { Severity := .DiagError, Summary := "Invalid block", Detail := "unexpected token",
    Subject := "main.tf:1,1-2" }

/-- A sample hcl library on strings: the text `bad` does not parse, any other text is its
own tree. -/
def sampleHcl : HclLib String String :=
  { ParseConfig := fun content _ => if content = "bad" then (none, [sampleDiag]) else (some content, [])
    FileBytes := fun file => file
    Format := fun bytes => bytes }

/-- A context for the sample library. -/
def sampleCtx (content : String) : TransformContext String String :=
  { Content := content, Filename := "main.tf", AST := none, Diagnostics := [], Metadata := [],
    DryRun := false }


/-- A heap with a parse handler at address 0 and a formatter at address 1, both without
successor. -/
def twoHandlers : Heap :=
  [{ kind := .ParseHandler, next := none }, { kind := .FormatterHandler, next := none }]

/-- A builder to which the two handlers were added with `WithHandler`. -/
def twoBuilder : PipelineBuilder := (NewPipelineBuilder.WithHandler 0).WithHandler 1


/-! # Theorems

## Paths: splitting and index formatting -/

theorem splitDots_ne_nil (cs : List Char) : splitDots cs ≠ [] := by
  induction cs with
  | nil => simp [splitDots]
  | cons c cs ih =>
    unfold splitDots
    split
    · simp
    · split <;> simp

theorem splitDots_of_noDot (a : List Char) (h : '.' ∉ a) : splitDots a = [a] := by
  induction a with
  | nil => rfl
  | cons c cs ih =>
    have hc : c ≠ '.' := fun e => h (by simp [e])
    have hcs : '.' ∉ cs := fun m => h (List.mem_cons_of_mem _ m)
    simp [splitDots, hc, ih hcs]

theorem splitDots_append (a b : List Char) (h : '.' ∉ a) :
    splitDots (a ++ '.' :: b) = a :: splitDots b := by
  induction a with
  | nil => simp [splitDots]
  | cons c cs ih =>
    have hc : c ≠ '.' := fun e => h (by simp [e])
    have hcs : '.' ∉ cs := fun m => h (List.mem_cons_of_mem _ m)
    simp [splitDots, hc, ih hcs]

theorem parseDigits_append (l m : List Char) (a : Nat) :
    parseDigits (l ++ m) a =
      match parseDigits l a with
      | some b => parseDigits m b
      | none => none := by
  induction l generalizing a with
  | nil => simp [parseDigits]
  | cons c cs ih =>
    simp only [List.cons_append, parseDigits]
    split
    · exact ih _
    · rfl

theorem digitChar_spec (d : Nat) (h : d < 10) :
    ('0' ≤ Nat.digitChar d ∧ Nat.digitChar d ≤ '9') ∧ (Nat.digitChar d).toNat - 48 = d ∧
      Nat.digitChar d ≠ '.' ∧ Nat.digitChar d ≠ '-' ∧ Nat.digitChar d ∉ metaChars := by
  interval_cases d <;> decide

theorem toDigitsCore_spec (fuel : Nat) : ∀ (n : Nat) (ds : List Char), n < fuel →
    ∃ l, Nat.toDigitsCore 10 fuel n ds = l ++ ds ∧ l ≠ [] ∧
      (∀ c ∈ l, ('0' ≤ c ∧ c ≤ '9') ∧ c ≠ '.' ∧ c ≠ '-' ∧ c ∉ metaChars) ∧
      ∀ a, parseDigits l a = some (a * 10 ^ l.length + n) := by
  induction fuel with
  | zero => intro n ds h; omega
  | succ fuel ih =>
    intro n ds h
    have hd := digitChar_spec (n % 10) (Nat.mod_lt _ (by decide))
    simp only [Nat.toDigitsCore]
    by_cases h0 : n / 10 = 0
    · simp only [h0, if_true]
      refine ⟨[Nat.digitChar (n % 10)], rfl, by simp, ?_, ?_⟩
      · intro c hc
        simp only [List.mem_singleton] at hc
        subst hc
        exact ⟨hd.1, hd.2.2.1, hd.2.2.2.1, hd.2.2.2.2⟩
      · intro a
        have hn : n % 10 = n := by omega
        simp only [parseDigits, List.length_singleton, pow_one]
        rw [if_pos hd.1, hd.2.1, hn]
    · simp only [h0, if_false]
      have hlt : n / 10 < fuel := by omega
      obtain ⟨l, hl, hne, hdig, hval⟩ := ih (n / 10) (Nat.digitChar (n % 10) :: ds) hlt
      refine ⟨l ++ [Nat.digitChar (n % 10)], by simp [hl], by simp, ?_, ?_⟩
      · intro c hc
        rcases List.mem_append.1 hc with hc | hc
        · exact hdig c hc
        · simp only [List.mem_singleton] at hc
          subst hc
          exact ⟨hd.1, hd.2.2.1, hd.2.2.2.1, hd.2.2.2.2⟩
      · intro a
        rw [parseDigits_append, hval a]
        simp only [parseDigits, hd.1, hd.2.1, and_self, if_true, List.length_append,
          List.length_singleton]
        congr 1
        rw [pow_succ]
        have := Nat.div_add_mod n 10
        nlinarith [this]

/-- The decimal text of an index: non-empty, digits only, and read back by both index
readers. -/
theorem toString_nat_spec (i : Nat) :
    (toString i).data ≠ [] ∧
      (∀ c ∈ (toString i).data, ('0' ≤ c ∧ c ≤ '9') ∧ c ≠ '.' ∧ c ≠ '-' ∧
        c ∉ metaChars) ∧
      parseDigits (toString i).data 0 = some i := by
  obtain ⟨l, hl, hne, hdig, hval⟩ := toDigitsCore_spec (i + 1) i [] (by omega)
  have hdata : (toString i).data = l := by
    show (Nat.repr i).data = l
    simp [Nat.repr, Nat.toDigits, hl, List.asString]
  rw [hdata]
  refine ⟨hne, hdig, ?_⟩
  simpa using hval 0

theorem parseUint_toString (i : Nat) : parseUint (toString i) = some i := by
  obtain ⟨hne, _, hval⟩ := toString_nat_spec i
  unfold parseUint
  cases h : (toString i).data with
  | nil => exact absurd h hne
  | cons c cs => rw [h] at hval; simpa using hval


theorem data_append_dot (a b : String) : (a ++ "." ++ b).data = a.data ++ '.' :: b.data := by
  have h1 : ("." : String).data = ['.'] := rfl
  rw [String.data_append, String.data_append, h1, List.append_assoc, List.singleton_append]

theorem splitPath_append_dot (a b : String) (h : '.' ∉ a.data) :
    splitPath (a ++ "." ++ b) = a :: splitPath b := by
  unfold splitPath
  rw [data_append_dot, splitDots_append _ _ h]
  rfl

theorem splitPath_of_noDot (a : String) (h : '.' ∉ a.data) : splitPath a = [a] := by
  unfold splitPath
  rw [splitDots_of_noDot _ h]
  rfl

theorem inFragment_of_noDot (a : String) (h : '.' ∉ a.data) :
    inFragment a = (a.data.all (fun c => !metaChars.contains c) && !a.data.isEmpty) := by
  unfold inFragment
  rw [splitDots_of_noDot _ h]
  simp

theorem inFragment_append_dot (a b : String) (h : '.' ∉ a.data) :
    inFragment (a ++ "." ++ b) = (inFragment a && inFragment b) := by
  rw [inFragment_of_noDot a h]
  unfold inFragment
  rw [data_append_dot, splitDots_append _ _ h]
  have h4 : metaChars.contains '.' = false := by decide
  simp only [List.all_append, List.all_cons, h4, Bool.not_false, Bool.true_and]
  cases (a.data.all fun c => !metaChars.contains c) <;>
    cases (b.data.all fun c => !metaChars.contains c) <;>
    cases ((splitDots b.data).all fun s => !s.isEmpty) <;>
    cases a.data.isEmpty <;> rfl

theorem resourcePathOf_eq (i : Nat) : resourcePathOf i = "resources" ++ "." ++ toString i := rfl

theorem toString_noDot (i : Nat) : '.' ∉ (toString i).data :=
  fun m => ((toString_nat_spec i).2.1 _ m).2.1 rfl

theorem inFragment_toString (i : Nat) : inFragment (toString i) = true := by
  obtain ⟨hne, hdig, _⟩ := toString_nat_spec i
  rw [inFragment_of_noDot _ (toString_noDot i)]
  have hmeta : (toString i).data.all (fun c => !metaChars.contains c) = true := by
    rw [List.all_eq_true]
    intro c hc
    have := (hdig c hc).2.2.2
    simpa using this
  have hemp : (toString i).data.isEmpty = false := by
    cases h : (toString i).data with
    | nil => exact absurd h hne
    | cons c cs => rfl
  rw [hmeta, hemp]
  rfl

theorem splitPath_resourcePathOf (i : Nat) :
    splitPath (resourcePathOf i) = ["resources", toString i] := by
  rw [resourcePathOf_eq, splitPath_append_dot _ _ (by decide),
    splitPath_of_noDot _ (toString_noDot i)]

theorem noDot_resourcePath_tail (i : Nat) (key : String) :
    splitPath (toString i ++ "." ++ key) = toString i :: splitPath key :=
  splitPath_append_dot _ _ (toString_noDot i)

theorem resourcePathOf_key_eq (i : Nat) (key : String) :
    resourcePathOf i ++ "." ++ key = "resources" ++ "." ++ (toString i ++ "." ++ key) := by
  rw [resourcePathOf_eq]
  simp only [String.append_assoc]

theorem splitPath_resourcePathOf_key (i : Nat) (key : String) :
    splitPath (resourcePathOf i ++ "." ++ key) = "resources" :: toString i :: splitPath key := by
  rw [resourcePathOf_key_eq, splitPath_append_dot _ _ (by decide),
    splitPath_append_dot _ _ (toString_noDot i)]

theorem inFragment_resourcePathOf_key (i : Nat) (key : String) :
    inFragment (resourcePathOf i ++ "." ++ key) = inFragment key := by
  rw [resourcePathOf_key_eq, inFragment_append_dot _ _ (by decide),
    inFragment_append_dot _ _ (toString_noDot i), inFragment_toString]
  have : inFragment "resources" = true := by decide
  rw [this]
  rfl

theorem resourcePathOf_type_eq (i : Nat) :
    resourcePathOf i ++ ".type" = resourcePathOf i ++ "." ++ "type" := by
  rw [String.append_assoc]; rfl

theorem splitPath_resourcePathOf_type (i : Nat) :
    splitPath (resourcePathOf i ++ ".type") = ["resources", toString i, "type"] := by
  rw [resourcePathOf_type_eq, splitPath_resourcePathOf_key]
  rfl

theorem inFragment_resourcePathOf_type (i : Nat) :
    inFragment (resourcePathOf i ++ ".type") = true := by
  rw [resourcePathOf_type_eq, inFragment_resourcePathOf_key]
  decide

theorem inFragment_resourcePathOf (i : Nat) : inFragment (resourcePathOf i) = true := by
  rw [resourcePathOf_eq, inFragment_append_dot _ _ (by decide), inFragment_toString]
  decide

theorem toString_ne_minusOne (i : Nat) : toString i ≠ "-1" := by
  obtain ⟨_, hdig, _⟩ := toString_nat_spec i
  intro h
  have hm : '-' ∈ (toString i).data := by rw [h]; decide
  exact (hdig _ hm).2.2.1 rfl


/-! ## The document-level operations on the "resources" array -/

theorem lookup_replaceFirst (k : String) (w : Json) (fs : List (String × Json))
    (h : (fs.lookup k).isSome = true) : (replaceFirst k w fs).lookup k = some w := by
  induction fs with
  | nil => simp at h
  | cons kv fs ih =>
    obtain ⟨k1, v⟩ := kv
    by_cases hk : (k == k1) = true
    · simp [replaceFirst, hk, List.lookup]
    · simp only [Bool.not_eq_true] at hk
      simp only [List.lookup, hk] at h
      simp [replaceFirst, hk, List.lookup, ih h]

theorem replaceFirst_replaceFirst (k : String) (w1 w2 : Json) (fs : List (String × Json)) :
    replaceFirst k w2 (replaceFirst k w1 fs) = replaceFirst k w2 fs := by
  induction fs with
  | nil => rfl
  | cons kv fs ih =>
    obtain ⟨k1, v⟩ := kv
    by_cases hk : (k == k1) = true
    · simp [replaceFirst, hk]
    · simp only [Bool.not_eq_true] at hk
      simp [replaceFirst, hk, ih]

theorem replaceFirst_self (k : String) (v : Json) (fs : List (String × Json))
    (h : fs.lookup k = some v) : replaceFirst k v fs = fs := by
  induction fs with
  | nil => rfl
  | cons kv fs ih =>
    obtain ⟨k1, v1⟩ := kv
    by_cases hk : (k == k1) = true
    · simp only [List.lookup, hk, Option.some.injEq] at h
      simp [replaceFirst, hk, h]
    · simp only [Bool.not_eq_true] at hk
      simp only [List.lookup, hk] at h
      simp [replaceFirst, hk, ih h]

theorem isSome_lookup_replaceFirst (k : String) (w : Json) (fs : List (String × Json))
    (h : (fs.lookup k).isSome = true) : ((replaceFirst k w fs).lookup k).isSome = true := by
  rw [lookup_replaceFirst k w fs h]; rfl

theorem getChild_withResources (fs : List (String × Json)) (es : List Json)
    (h : (fs.lookup "resources").isSome = true) :
    getChild (withResources fs es) "resources" = some (.arr es) :=
  lookup_replaceFirst _ _ _ h

theorem getChild_arr_index (es : List Json) (i : Nat) :
    getChild (.arr es) (toString i) = es[i]? := by
  simp [getChild, parseUint_toString]

theorem replaceChild_withResources (fs : List (String × Json)) (es : List Json) (w : Json) :
    replaceChild (withResources fs es) "resources" w
      = .obj (replaceFirst "resources" w fs) := by
  simp [replaceChild, withResources, replaceFirst_replaceFirst]

theorem replaceChild_arr_index (es : List Json) (i : Nat) (w : Json) :
    replaceChild (.arr es) (toString i) w = .arr (es.set i w) := by
  simp [replaceChild, parseUint_toString]

theorem treeGet_type (fs : List (String × Json)) (es : List Json) (i : Nat) (e : Json)
    (h : (fs.lookup "resources").isSome = true) (he : es[i]? = some e) :
    (treeGet (withResources fs es) (resourcePathOf i ++ ".type")).Str = typeOf e := by
  unfold treeGet
  rw [inFragment_resourcePathOf_type, if_pos rfl, splitPath_resourcePathOf_type]
  simp only [getPath, getChild_withResources fs es h, getChild_arr_index, he]
  unfold typeOf
  cases getChild e "type" <;> rfl

theorem treeGet_entry (fs : List (String × Json)) (es : List Json) (i : Nat) (e : Json)
    (h : (fs.lookup "resources").isSome = true) (he : es[i]? = some e) :
    treeGet (withResources fs es) (resourcePathOf i) = resultOf (some e) := by
  unfold treeGet
  rw [inFragment_resourcePathOf, if_pos rfl, splitPath_resourcePathOf]
  simp only [getPath, getChild_withResources fs es h, getChild_arr_index, he]

theorem treeDelete_entry (fs : List (String × Json)) (es : List Json) (i : Nat)
    (h : (fs.lookup "resources").isSome = true) (hi : i < es.length) :
    treeDelete (withResources fs es) (resourcePathOf i) = withResources fs (es.eraseIdx i) := by
  unfold treeDelete
  rw [inFragment_resourcePathOf, if_pos rfl, splitPath_resourcePathOf]
  have hk : delKey (withResources fs es) "resources" = "resources" := rfl
  have hk2 : delKey (.arr es) (toString i) = toString i := by
    simp [delKey, toString_ne_minusOne]
  simp only [deletePath, hk, getChild_withResources fs es h, hk2, removeChild,
    parseUint_toString, hi, if_true, Option.map_some', Option.getD_some,
    replaceChild_withResources]
  rfl

theorem treeSet_entry (fs : List (String × Json)) (es : List Json) (i : Nat) (e : Json)
    (key : String) (v : Json)
    (h : (fs.lookup "resources").isSome = true) (he : es[i]? = some e) :
    treeSet (withResources fs es) (resourcePathOf i ++ "." ++ key) v
      = withResources fs (es.set i (mergeField e key v)) := by
  have hset : es.set i e = es := by
    apply List.ext_getElem?
    intro j
    by_cases hj : i = j
    · subst hj
      rw [List.getElem?_set_self (by
        rcases List.getElem?_eq_some.1 he with ⟨hlt, _⟩
        exact hlt), he]
    · rw [List.getElem?_set_ne hj]
  unfold treeSet mergeField
  rw [inFragment_resourcePathOf_key]
  by_cases hf : inFragment key = true
  · rw [if_pos hf, if_pos hf, splitPath_resourcePathOf_key]
    simp only [setPath, getChild_withResources fs es h, getChild_arr_index, he]
    cases hs : setPath e (splitPath key) v with
    | none => simp [hset]
    | some e1 =>
      simp only [Option.map_some', Option.getD_some, replaceChild_arr_index,
        replaceChild_withResources]
      rfl
  · rw [if_neg hf, if_neg hf, hset]

theorem foldl_treeSet_entry (fs : List (String × Json)) (kvs : List (String × Json)) :
    ∀ (es : List Json) (i : Nat) (e : Json),
      (fs.lookup "resources").isSome = true → es[i]? = some e →
      kvs.foldl (fun r kv => treeSet r (resourcePathOf i ++ "." ++ kv.1) kv.2)
          (withResources fs es)
        = withResources fs (es.set i (mergeFields e kvs)) := by
  induction kvs with
  | nil =>
    intro es i e _ he
    have hset : es.set i e = es := by
      apply List.ext_getElem?
      intro j
      by_cases hj : i = j
      · subst hj
        rw [List.getElem?_set_self (by
          rcases List.getElem?_eq_some.1 he with ⟨hlt, _⟩
          exact hlt), he]
      · rw [List.getElem?_set_ne hj]
    simp [mergeFields, hset]
  | cons kv kvs ih =>
    intro es i e h he
    have hlt : i < es.length := by
      rcases List.getElem?_eq_some.1 he with ⟨hlt, _⟩
      exact hlt
    simp only [List.foldl_cons]
    rw [treeSet_entry fs es i e kv.1 kv.2 h he,
      ih (es.set i (mergeField e kv.1 kv.2)) i (mergeField e kv.1 kv.2) h
        (List.getElem?_set_self hlt)]
    simp [mergeFields, List.set_set]


/-! ## The loop on the tree instance -/

theorem getElem?_append_cons_length (a : List Json) (x : Json) (b : List Json) :
    (a ++ x :: b)[a.length]? = some x := by
  induction a with
  | nil => simp
  | cons y a ih => simpa using ih

theorem eraseIdx_append_cons_length (a : List Json) (x : Json) (b : List Json) :
    (a ++ x :: b).eraseIdx a.length = a ++ b := by
  induction a with
  | nil => rfl
  | cons y a ih => simpa using ih

theorem set_append_cons_length (a : List Json) (x y : Json) (b : List Json) :
    (a ++ x :: b).set a.length y = a ++ y :: b := by
  induction a with
  | nil => rfl
  | cons z a ih => simp

theorem visit_tree (decode : String → Option (List (String × Json))) (p : Pipeline)
    (reg : StrategyRegistry) (fs : List (String × Json)) (es : List Json) (i : Nat) (e : Json)
    (hreg : p.registry = some reg) (h : (fs.lookup "resources").isSome = true)
    (he : es[i]? = some e) :
    visit (treeLib decode) p (withResources fs es) i =
      match failure reg i e with
      | some err => .error (errorfW ("failed to transform " ++ typeOf e ++ " state: ") err)
      | none =>
        .ok (withResources fs
          (if isDeleted reg i e then es.eraseIdx i else es.set i (kept decode reg i e))) := by
  have hlt : i < es.length := by
    rcases List.getElem?_eq_some.1 he with ⟨hlt, _⟩
    exact hlt
  have hset : es.set i e = es := by
    apply List.ext_getElem?
    intro j
    by_cases hj : i = j
    · subst hj
      rw [List.getElem?_set_self hlt, he]
    · rw [List.getElem?_set_ne hj]
  unfold visit
  simp only [treeLib, treeGet_type fs es i e h he, treeGet_entry fs es i e h he, Pipeline.find,
    hreg]
  unfold failure isDeleted kept transformerOutput
  cases hfind : reg.Find (typeOf e) with
  | none => simp [hset]
  | some t =>
    simp only [Option.map_some']
    rcases hout : t.TransformState (resultOf (some e)) (resourcePathOf i) with ⟨s, err⟩
    cases err with
    | some err => rfl
    | none =>
      by_cases hs : s = ""
      · simp [hs, treeDelete_entry fs es i h hlt]
      · simp only [hs, if_false, beq_iff_eq, Bool.false_eq_true]
        cases hd : decode s with
        | none => simp [hset]
        | some kvs => simp [foldl_treeSet_entry fs kvs es i e h he]

theorem survivors_cons (decode : String → Option (List (String × Json)))
    (reg : StrategyRegistry) (s : Nat) (e : Json) (es : List Json) :
    survivors decode reg s (e :: es) =
      if isDeleted reg s e then survivors decode reg (s + 1) es
      else kept decode reg s e :: survivors decode reg (s + 1) es := rfl

theorem firstFailure_cons (reg : StrategyRegistry) (s : Nat) (e : Json) (es : List Json) :
    firstFailure reg s (e :: es) =
      match firstFailure reg (s + 1) es with
      | some err => some err
      | none =>
        (failure reg s e).map (errorfW ("failed to transform " ++ typeOf e ++ " state: ")) :=
  rfl

theorem survivors_append_singleton (decode : String → Option (List (String × Json)))
    (reg : StrategyRegistry) (a : List Json) (x : Json) :
    ∀ s, survivors decode reg s (a ++ [x]) =
      survivors decode reg s a ++
        (if isDeleted reg (s + a.length) x then [] else [kept decode reg (s + a.length) x]) := by
  induction a with
  | nil => intro s; simp [survivors]
  | cons y a ih =>
    intro s
    have hidx : s + 1 + a.length = s + (a.length + 1) := by omega
    rw [List.cons_append, survivors_cons, survivors_cons, ih (s + 1), List.length_cons, hidx]
    split <;> simp

theorem firstFailure_append_singleton (reg : StrategyRegistry) (a : List Json) (x : Json) :
    ∀ s, firstFailure reg s (a ++ [x]) =
      match failure reg (s + a.length) x with
      | some err => some (errorfW ("failed to transform " ++ typeOf x ++ " state: ") err)
      | none => firstFailure reg s a := by
  induction a with
  | nil =>
    intro s
    simp only [List.nil_append, firstFailure, List.length_nil, Nat.add_zero]
    cases failure reg s x <;> rfl
  | cons y a ih =>
    intro s
    have hidx : s + 1 + a.length = s + (a.length + 1) := by omega
    rw [List.cons_append, firstFailure_cons, firstFailure_cons, ih (s + 1), List.length_cons,
      hidx]
    cases failure reg (s + (a.length + 1)) x <;> rfl

theorem stateLoop_tree (decode : String → Option (List (String × Json))) (p : Pipeline)
    (reg : StrategyRegistry) (fs : List (String × Json))
    (hreg : p.registry = some reg) (h : (fs.lookup "resources").isSome = true)
    (pre : List Json) :
    ∀ suf : List Json,
      stateLoop (treeLib decode) p pre.length (withResources fs (pre ++ suf)) =
        match firstFailure reg 0 pre with
        | some err => .error err
        | none => .ok (withResources fs (survivors decode reg 0 pre ++ suf)) := by
  induction pre using List.reverseRecOn with
  | nil => intro suf; rfl
  | append_singleton init x ih =>
    intro suf
    have hx : (init ++ [x] ++ suf)[init.length]? = some x := by
      simpa using getElem?_append_cons_length init x suf
    rw [List.length_append, List.length_singleton]
    simp only [stateLoop]
    rw [visit_tree decode p reg fs _ init.length x hreg h hx,
      firstFailure_append_singleton, survivors_append_singleton]
    simp only [Nat.zero_add]
    cases hf : failure reg init.length x with
    | some err => rfl
    | none =>
      simp only []
      by_cases hd : isDeleted reg init.length x = true
      · have he : (init ++ [x] ++ suf).eraseIdx init.length = init ++ suf := by
          simpa using eraseIdx_append_cons_length init x suf
        simp only [hd, if_true, he, List.append_nil]
        exact ih suf
      · have hs : (init ++ [x] ++ suf).set init.length (kept decode reg init.length x)
            = init ++ (kept decode reg init.length x :: suf) := by
          simp
        simp only [hd, if_false, hs, Bool.false_eq_true]
        rw [ih (kept decode reg init.length x :: suf)]
        simp

/-- What `TransformState` computes on a document whose first "resources" field is an
array: the error of the failing entry with the highest index, or else the document with
the surviving entries. -/
theorem TransformState_tree (decode : String → Option (List (String × Json))) (p : Pipeline)
    (reg : StrategyRegistry) (fs : List (String × Json)) (es : List Json) (name : String)
    (hstate : p.isState = true) (hreg : p.registry = some reg)
    (hres : fs.lookup "resources" = some (.arr es)) :
    Pipeline.TransformState (treeLib decode) p (.obj fs) name =
      match firstFailure reg 0 es with
      | some err => (none, some err)
      | none => (some (withResources fs (survivors decode reg 0 es)), none) := by
  have hsome : (fs.lookup "resources").isSome = true := by rw [hres]; rfl
  have hdoc : Json.obj fs = withResources fs (es ++ []) := by
    simp [withResources, replaceFirst_self _ _ _ hres]
  have hget : treeGet (.obj fs) "resources" = resultOf (some (.arr es)) := by
    have hf : inFragment "resources" = true := by decide
    have hp : splitPath "resources" = ["resources"] := by decide
    unfold treeGet
    rw [if_pos hf, hp]
    simp [getPath, getChild, hres]
  unfold Pipeline.TransformState
  simp only [hstate, treeLib, hget, resultOf, valueArray, Bool.not_true, Bool.false_eq_true,
    if_false]
  have hloop := stateLoop_tree decode p reg fs hreg hsome es []
  rw [← hdoc] at hloop
  simp only [treeLib] at hloop
  rw [hloop]
  cases firstFailure reg 0 es <;> simp


/-! ## Survivors -/

theorem survivors_append (decode : String → Option (List (String × Json)))
    (reg : StrategyRegistry) (a b : List Json) :
    ∀ s, survivors decode reg s (a ++ b) =
      survivors decode reg s a ++ survivors decode reg (s + a.length) b := by
  induction a with
  | nil => intro s; simp [survivors]
  | cons y a ih =>
    intro s
    have hidx : s + 1 + a.length = s + (a.length + 1) := by omega
    rw [List.cons_append, survivors_cons, survivors_cons, ih (s + 1), List.length_cons, hidx]
    split <;> simp

theorem survivors_eq_filter_map (decode : String → Option (List (String × Json)))
    (reg : StrategyRegistry) (es : List Json) :
    ∀ s, survivors decode reg s es =
      ((List.enumFrom s es).filter (fun ie => !isDeleted reg ie.1 ie.2)).map
        (fun ie => kept decode reg ie.1 ie.2) := by
  induction es with
  | nil => intro s; rfl
  | cons e es ih =>
    intro s
    rw [survivors_cons, ih (s + 1), List.enumFrom_cons]
    by_cases hd : isDeleted reg s e = true
    · simp [hd]
    · simp [hd]

theorem survivors_length (decode : String → Option (List (String × Json)))
    (reg : StrategyRegistry) (es : List Json) :
    ∀ s, (survivors decode reg s es).length
        + ((List.enumFrom s es).filter (fun ie => isDeleted reg ie.1 ie.2)).length
      = es.length := by
  induction es with
  | nil => intro s; rfl
  | cons e es ih =>
    intro s
    rw [survivors_cons, List.enumFrom_cons]
    have := ih (s + 1)
    by_cases hd : isDeleted reg s e = true
    · simp only [hd, if_true, List.filter_cons_of_pos, List.length_cons]
      omega
    · simp only [hd, if_false, Bool.false_eq_true, List.length_cons]
      rw [List.filter_cons_of_neg (by simpa using hd)]
      omega

theorem firstFailure_eq_none (reg : StrategyRegistry) (es : List Json) :
    ∀ s, (∀ k e, es[k]? = some e → failure reg (s + k) e = none) →
      firstFailure reg s es = none := by
  induction es with
  | nil => intro s _; rfl
  | cons e es ih =>
    intro s h
    rw [firstFailure_cons, ih (s + 1) (fun k e1 hk => by
      have := h (k + 1) e1 (by simpa using hk)
      rwa [show s + (k + 1) = s + 1 + k by omega] at this)]
    have h0 := h 0 e (by simp)
    simp only [Nat.add_zero] at h0
    rw [h0]
    rfl

theorem kept_of_unregistered (decode : String → Option (List (String × Json)))
    (reg : StrategyRegistry) (i : Nat) (e : Json) (h : reg.Find (typeOf e) = none) :
    kept decode reg i e = e := by
  simp [kept, transformerOutput, h]

theorem isDeleted_of_unregistered (reg : StrategyRegistry) (i : Nat) (e : Json)
    (h : reg.Find (typeOf e) = none) : isDeleted reg i e = false := by
  simp [isDeleted, transformerOutput, h]

theorem failure_of_unregistered (reg : StrategyRegistry) (i : Nat) (e : Json)
    (h : reg.Find (typeOf e) = none) : failure reg i e = none := by
  simp [failure, transformerOutput, h]

theorem mem_enumFrom_getElem? (es : List Json) :
    ∀ (s : Nat) (ie : Nat × Json), ie ∈ List.enumFrom s es →
      ∃ k, ie.1 = s + k ∧ es[k]? = some ie.2 := by
  induction es with
  | nil => intro s ie h; simp at h
  | cons e es ih =>
    intro s ie h
    rw [List.enumFrom_cons, List.mem_cons] at h
    rcases h with h | h
    · exact ⟨0, by simp [h], by simp [h]⟩
    · obtain ⟨k, hk1, hk2⟩ := ih (s + 1) ie h
      exact ⟨k + 1, by omega, by simpa using hk2⟩

/-- Claim C1: On a state pipeline, for a document whose "resources" is an array of N entries
and a registry none of whose transformers fails on them, `TransformState` returns the
document with its "resources" array replaced by the non-deleted entries in their original
order (each as its visit left it), so N - M entries where M entries are deleted; when every
non-deleted entry has no registered transformer, these are exactly the original entries. -/
theorem state_deletion_keeps_survivors (decode : String → Option (List (String × Json)))
    (p : Pipeline) (reg : StrategyRegistry) (fs : List (String × Json)) (es : List Json)
    (name : String) (hstate : p.isState = true) (hreg : p.registry = some reg)
    (hres : fs.lookup "resources" = some (.arr es))
    (hok : ∀ i e, es[i]? = some e → failure reg i e = none) :
    ∃ out : List Json,
      Pipeline.TransformState (treeLib decode) p (.obj fs) name = (some (withResources fs out), none) ∧
      out = ((List.enum es).filter (fun ie => !isDeleted reg ie.1 ie.2)).map
        (fun ie => kept decode reg ie.1 ie.2) ∧
      out.length + ((List.enum es).filter (fun ie => isDeleted reg ie.1 ie.2)).length
        = es.length ∧
      ((∀ i e, es[i]? = some e → isDeleted reg i e = false → reg.Find (typeOf e) = none) →
        out = ((List.enum es).filter (fun ie => !isDeleted reg ie.1 ie.2)).map Prod.snd) := by
  refine ⟨survivors decode reg 0 es, ?_, ?_, ?_, ?_⟩
  · rw [TransformState_tree decode p reg fs es name hstate hreg hres,
      firstFailure_eq_none reg es 0 (fun k e hk => by simpa using hok k e hk)]
  · exact survivors_eq_filter_map decode reg es 0
  · exact survivors_length decode reg es 0
  · intro hun
    rw [survivors_eq_filter_map decode reg es 0]
    apply List.map_congr_left
    intro ie hie
    rw [List.mem_filter] at hie
    obtain ⟨k, hk1, hk2⟩ := mem_enumFrom_getElem? es 0 ie hie.1
    have hk : ie.1 = k := by omega
    have hdel : isDeleted reg ie.1 ie.2 = false := by simpa using hie.2
    rw [hk] at hdel ⊢
    exact kept_of_unregistered decode reg k ie.2 (hun k ie.2 hk2 hdel)

theorem deleteBRegistry_never_fails (i : Nat) (e : Json) : failure deleteBRegistry i e = none := by
  unfold failure transformerOutput deleteBRegistry StrategyRegistry.Find
    StrategyRegistry.Register NewStrategyRegistry
  simp only [List.lookup]
  cases typeOf e == deleteB.ResourceType <;> rfl

/-- Witness for C1: entries at indices 0, 1, 2 of which only index 1 is deleted; the result
holds exactly the original entries 0 and 2. -/
theorem state_deletion_keeps_survivors_witness :
    ((statePipelineOf deleteBRegistry).isState = true ∧
      (∀ i e, abcEntries[i]? = some e → failure deleteBRegistry i e = none) ∧
      ∃ out : List Json,
        Pipeline.TransformState (treeLib decodeNothing) (statePipelineOf deleteBRegistry)
            (.obj abcFields) "terraform.tfstate" = (some (withResources abcFields out), none) ∧
        out.length + ((List.enum abcEntries).filter
          (fun ie => isDeleted deleteBRegistry ie.1 ie.2)).length = abcEntries.length) ∧
    Pipeline.TransformState (treeLib decodeNothing) (statePipelineOf deleteBRegistry) (.obj abcFields)
        "terraform.tfstate"
      = (some (.obj [("version", .num "4"),
          ("resources", .arr [entryOfType "a", entryOfType "c"])]), none) := by
  have hok : ∀ i e, abcEntries[i]? = some e → failure deleteBRegistry i e = none :=
    fun i e _ => deleteBRegistry_never_fails i e
  obtain ⟨out, hout, _, hlen, _⟩ :=
    state_deletion_keeps_survivors decodeNothing (statePipelineOf deleteBRegistry)
      deleteBRegistry abcFields abcEntries "terraform.tfstate" rfl rfl rfl hok
  exact ⟨⟨rfl, hok, out, hout, hlen⟩, rfl⟩


/-! ## Merging plain fields into an object -/

theorem plainKey_spec (k : String) (h : plainKey k = true) :
    inFragment k = true ∧ splitPath k = [k] := by
  unfold plainKey at h
  rw [Bool.and_eq_true] at h
  obtain ⟨hf, hd⟩ := h
  have hnd : '.' ∉ k.data := by
    intro hm
    have hc : k.data.contains '.' = true := by simpa using hm
    rw [hc] at hd
    exact Bool.noConfusion hd
  exact ⟨hf, splitPath_of_noDot k hnd⟩

theorem mergeField_obj_plain (efs : List (String × Json)) (k : String) (v : Json)
    (h : plainKey k = true) : mergeField (.obj efs) k v = .obj (upsert k v efs) := by
  obtain ⟨hf, hs⟩ := plainKey_spec k h
  unfold mergeField upsert
  rw [if_pos hf, hs]
  simp only [setPath, getChild]
  cases hl : efs.lookup k with
  | none => simp [createChild, buildVal]
  | some w => simp [replaceChild]

theorem lookup_append_singleton (k k1 : String) (v : Json) (fs : List (String × Json)) :
    (fs ++ [(k1, v)]).lookup k =
      match fs.lookup k with
      | some w => some w
      | none => if k == k1 then some v else none := by
  induction fs with
  | nil =>
    simp only [List.nil_append, List.lookup]
    cases k == k1 <;> rfl
  | cons kv fs ih =>
    obtain ⟨k2, v2⟩ := kv
    simp only [List.cons_append, List.lookup]
    cases k == k2
    · exact ih
    · rfl

theorem lookup_replaceFirst_ne (k k1 : String) (w : Json) (fs : List (String × Json))
    (h : k ≠ k1) : (replaceFirst k1 w fs).lookup k = fs.lookup k := by
  induction fs with
  | nil => rfl
  | cons kv fs ih =>
    obtain ⟨k2, v2⟩ := kv
    by_cases hk : (k1 == k2) = true
    · have hkk : k1 = k2 := by simpa using hk
      subst hkk
      have hne : (k == k1) = false := by simpa using h
      simp [replaceFirst, List.lookup, hne]
    · simp only [Bool.not_eq_true] at hk
      simp only [replaceFirst, hk, List.lookup, ih]

theorem lookup_upsert_self (k : String) (v : Json) (fs : List (String × Json)) :
    (upsert k v fs).lookup k = some v := by
  unfold upsert
  by_cases h : (fs.lookup k).isSome = true
  · rw [if_pos h, lookup_replaceFirst k v fs h]
  · rw [if_neg h, lookup_append_singleton]
    have hn : fs.lookup k = none := by
      cases hl : fs.lookup k with
      | none => rfl
      | some w => rw [hl] at h; exact absurd rfl h
    simp [hn]

theorem lookup_upsert_ne (k k1 : String) (v : Json) (fs : List (String × Json)) (h : k ≠ k1) :
    (upsert k1 v fs).lookup k = fs.lookup k := by
  unfold upsert
  by_cases h1 : (fs.lookup k1).isSome = true
  · rw [if_pos h1, lookup_replaceFirst_ne k k1 v fs h]
  · rw [if_neg h1, lookup_append_singleton]
    have hne : (k == k1) = false := by simpa using h
    cases fs.lookup k <;> simp [hne]

theorem mergeFields_obj_plain (kvs : List (String × Json)) :
    ∀ efs : List (String × Json),
      (∀ kv ∈ kvs, plainKey kv.1 = true) → (kvs.map Prod.fst).Nodup →
      ∃ efs1, mergeFields (.obj efs) kvs = .obj efs1 ∧
        (∀ k v, (k, v) ∈ kvs → efs1.lookup k = some v) ∧
        (∀ k, k ∉ kvs.map Prod.fst → efs1.lookup k = efs.lookup k) := by
  induction kvs with
  | nil =>
    intro efs _ _
    exact ⟨efs, rfl, fun k v h => by simp at h, fun k _ => rfl⟩
  | cons kv kvs ih =>
    intro efs hplain hnodup
    obtain ⟨k0, v0⟩ := kv
    rw [List.map_cons, List.nodup_cons] at hnodup
    obtain ⟨efs1, hm, hin, hout⟩ :=
      ih (upsert k0 v0 efs) (fun kv h => hplain kv (List.mem_cons_of_mem _ h)) hnodup.2
    refine ⟨efs1, ?_, ?_, ?_⟩
    · have h0 : plainKey k0 = true := hplain (k0, v0) (by simp)
      show mergeFields (mergeField (.obj efs) k0 v0) kvs = _
      rw [mergeField_obj_plain efs k0 v0 h0, hm]
    · intro k v hkv
      rw [List.mem_cons] at hkv
      rcases hkv with hkv | hkv
      · obtain ⟨rfl, rfl⟩ := Prod.mk.inj hkv
        rw [hout k hnodup.1, lookup_upsert_self]
      · exact hin k v hkv
    · intro k hk
      rw [List.map_cons, List.mem_cons, not_or] at hk
      rw [hout k hk.2, lookup_upsert_ne k k0 v0 efs hk.1]

theorem take_append_drop_succ (es : List Json) (i : Nat) (e : Json) (h : es[i]? = some e) :
    es = es.take i ++ e :: es.drop (i + 1) ∧ (es.take i).length = i := by
  have hlt : i < es.length := by
    rcases List.getElem?_eq_some.1 h with ⟨hlt, _⟩
    exact hlt
  have he : es[i] = e := by
    rcases List.getElem?_eq_some.1 h with ⟨_, he⟩
    exact he
  refine ⟨?_, by simp; omega⟩
  rw [← he, ← List.drop_eq_getElem_cons hlt, List.take_append_drop]

/-- The surviving entries around a surviving entry at index `i`. -/
theorem survivors_split (decode : String → Option (List (String × Json)))
    (reg : StrategyRegistry) (es : List Json) (i : Nat) (e : Json) (h : es[i]? = some e)
    (hd : isDeleted reg i e = false) :
    survivors decode reg 0 es =
      survivors decode reg 0 (es.take i) ++
        kept decode reg i e :: survivors decode reg (i + 1) (es.drop (i + 1)) := by
  obtain ⟨hsplit, hlen⟩ := take_append_drop_succ es i e h
  conv_lhs => rw [hsplit]
  rw [survivors_append, survivors_cons, hlen, Nat.zero_add, hd]
  rfl


/-- The field-level merge for plain field names.  On a state pipeline where no transformer
fails, let the transformer registered for an object entry at index `i` return a non-empty
replacement that decodes to fields whose names are plain (non-empty, free of `.` and of the
other path characters `| # @ * ? \ ! [ : {`) and pairwise distinct.  Then the result holds,
at the entry's place among the survivors, an object in which every replacement field has
the replacement's value and every other field name has the value it had. -/
theorem merge_writes_plain_fields (decode : String → Option (List (String × Json)))
    (p : Pipeline) (reg : StrategyRegistry) (fs : List (String × Json)) (es : List Json)
    (name : String) (i : Nat) (efs : List (String × Json)) (t : ResourceTransformer)
    (s : String) (kvs : List (String × Json))
    (hstate : p.isState = true) (hreg : p.registry = some reg)
    (hres : fs.lookup "resources" = some (.arr es))
    (hok : ∀ j e, es[j]? = some e → failure reg j e = none)
    (hi : es[i]? = some (.obj efs))
    (hfind : reg.Find (typeOf (.obj efs)) = some t)
    (hout : t.TransformState (resultOf (some (.obj efs))) (resourcePathOf i) = (s, none))
    (hne : s ≠ "") (hdec : decode s = some kvs)
    (hplain : ∀ kv ∈ kvs, plainKey kv.1 = true) (hnodup : (kvs.map Prod.fst).Nodup) :
    ∃ efs1 : List (String × Json),
      Pipeline.TransformState (treeLib decode) p (.obj fs) name =
        (some (withResources fs (survivors decode reg 0 (es.take i) ++
          .obj efs1 :: survivors decode reg (i + 1) (es.drop (i + 1)))), none) ∧
      (∀ k v, (k, v) ∈ kvs → efs1.lookup k = some v) ∧
      (∀ k, k ∉ kvs.map Prod.fst → efs1.lookup k = efs.lookup k) := by
  obtain ⟨efs1, hm, hin, hrest⟩ := mergeFields_obj_plain kvs efs hplain hnodup
  have hdel : isDeleted reg i (.obj efs) = false := by
    simp [isDeleted, transformerOutput, hfind, hout, hne]
  have hkept : kept decode reg i (.obj efs) = .obj efs1 := by
    simp [kept, transformerOutput, hfind, hout, hdec, hm]
  refine ⟨efs1, ?_, hin, hrest⟩
  rw [TransformState_tree decode p reg fs es name hstate hreg hres,
    firstFailure_eq_none reg es 0 (fun k e hk => by simpa using hok k e hk),
    survivors_split decode reg es i (.obj efs) hi hdel, hkept]

theorem replaceRegistry_never_fails (text : String) (i : Nat) (e : Json) :
    failure (replaceRegistry text) i e = none := by
  unfold failure transformerOutput replaceRegistry StrategyRegistry.Find
    StrategyRegistry.Register NewStrategyRegistry
  simp only [List.lookup]
  cases typeOf e == (replaceWith text).ResourceType <;> rfl

/-- The merge at work: the replacement `{"new_field": "x"}` on an entry with `"old_field": "y"`
yields an entry with both. -/
theorem merge_writes_plain_fields_witness :
    (∃ efs1 : List (String × Json),
      Pipeline.TransformState (treeLib (decodeOnly newFieldText [("new_field", .str "x")]))
          (statePipelineOf (replaceRegistry newFieldText)) (.obj oldFields) "terraform.tfstate" =
        (some (withResources oldFields [.obj efs1]), none) ∧
      efs1.lookup "new_field" = some (.str "x") ∧
      efs1.lookup "old_field" = some (.str "y")) ∧
    Pipeline.TransformState (treeLib (decodeOnly newFieldText [("new_field", .str "x")]))
        (statePipelineOf (replaceRegistry newFieldText)) (.obj oldFields) "terraform.tfstate" =
      (some (.obj [("resources", .arr [.obj
        [("type", .str "t"), ("old_field", .str "y"), ("new_field", .str "x")]])]), none) := by
  obtain ⟨efs1, h1, h2, h3⟩ :=
    merge_writes_plain_fields (decodeOnly newFieldText [("new_field", .str "x")])
      (statePipelineOf (replaceRegistry newFieldText)) (replaceRegistry newFieldText)
      oldFields [.obj oldEntryFields] "terraform.tfstate" 0 oldEntryFields
      (replaceWith newFieldText) newFieldText [("new_field", .str "x")]
      rfl rfl rfl (fun j e _ => replaceRegistry_never_fails _ j e) rfl rfl rfl (by decide) rfl
      (by decide) (by decide)
  refine ⟨⟨efs1, h1, h2 _ _ (by simp), ?_⟩, rfl⟩
  rw [h3 "old_field" (by decide)]
  rfl

/-- Claim C2, the code at the failing input: for the replacement `{"a.b": "x"}` the field
`a.b` is not written into the entry; the value goes to the path `a` then `b`, so the entry
gets a field `a` holding `{"b": "x"}` and still has no field named `a.b`. -/
theorem dotted_field_is_not_written :
    Pipeline.TransformState (treeLib (decodeOnly dottedText [("a.b", .str "x")]))
        (statePipelineOf (replaceRegistry dottedText)) (.obj oldFields) "terraform.tfstate" =
      (some (.obj [("resources", .arr [.obj
        [("type", .str "t"), ("old_field", .str "y"), ("a", .obj [("b", .str "x")])]])]), none) ∧
    ¬ ∃ (out : Json) (efs1 : List (String × Json)),
      Pipeline.TransformState (treeLib (decodeOnly dottedText [("a.b", .str "x")]))
          (statePipelineOf (replaceRegistry dottedText)) (.obj oldFields) "terraform.tfstate" =
        (some out, none) ∧
      getPath out ["resources", "0"] = some (.obj efs1) ∧
      efs1.lookup "a.b" = some (.str "x") := by
  refine ⟨rfl, ?_⟩
  rintro ⟨out, efs1, h1, h2, h3⟩
  have hr : Pipeline.TransformState (treeLib (decodeOnly dottedText [("a.b", .str "x")]))
        (statePipelineOf (replaceRegistry dottedText)) (.obj oldFields) "terraform.tfstate" =
      (some (.obj [("resources", .arr [.obj
        [("type", .str "t"), ("old_field", .str "y"), ("a", .obj [("b", .str "x")])]])]), none) :=
    rfl
  rw [hr] at h1
  injection h1 with h1 _
  injection h1 with h1
  subst h1
  have h4 : (some (Json.obj
      [("type", .str "t"), ("old_field", .str "y"), ("a", .obj [("b", .str "x")])]))
      = some (.obj efs1) := h2
  injection h4 with h4
  injection h4 with h4
  subst h4
  exact Option.noConfusion h3


/-! ## The rename scenario -/

theorem renameFooToData_output :
    transformerOutput renameRegistry 0 (.obj dnsEntryFields) = some (renamedText, none) := rfl

theorem mergeFields_merged (kvs : List (String × Json)) (h : ∀ kv ∈ kvs, kv ∈ renamedFields) :
    mergeFields (.obj mergedEntryFields) kvs = .obj mergedEntryFields := by
  induction kvs with
  | nil => rfl
  | cons kv kvs ih =>
    have hkv := h kv (by simp)
    have hstep : mergeField (.obj mergedEntryFields) kv.1 kv.2 = .obj mergedEntryFields := by
      simp only [renamedFields, List.mem_cons, List.mem_singleton, List.not_mem_nil,
        or_false] at hkv
      rcases hkv with rfl | rfl | rfl <;> rfl
    show mergeFields (mergeField (.obj mergedEntryFields) kv.1 kv.2) kvs = _
    rw [hstep]
    exact ih (fun kv1 h1 => h kv1 (List.mem_cons_of_mem _ h1))

theorem mergeFields_renamed (kvs : List (String × Json)) (h : ∀ kv ∈ kvs, kv ∈ renamedFields)
    (hdata : ("data", Json.str "bar") ∈ kvs) :
    mergeFields (.obj dnsEntryFields) kvs = .obj mergedEntryFields := by
  induction kvs with
  | nil => simp at hdata
  | cons kv kvs ih =>
    have hkv := h kv (by simp)
    have htail : ∀ kv1 ∈ kvs, kv1 ∈ renamedFields :=
      fun kv1 h1 => h kv1 (List.mem_cons_of_mem _ h1)
    show mergeFields (mergeField (.obj dnsEntryFields) kv.1 kv.2) kvs = _
    simp only [renamedFields, List.mem_cons, List.mem_singleton, List.not_mem_nil,
      or_false] at hkv
    rcases hkv with rfl | rfl | rfl
    · have hstep : mergeField (.obj dnsEntryFields) "type" (.str "dns_record")
          = .obj dnsEntryFields := rfl
      rw [hstep]
      refine ih htail ?_
      rcases List.mem_cons.1 hdata with hd | hd
      · exact absurd (congrArg Prod.fst hd) (by decide)
      · exact hd
    · have hstep : mergeField (.obj dnsEntryFields) "path" (.str "resources.0")
          = .obj dnsEntryFields := rfl
      rw [hstep]
      refine ih htail ?_
      rcases List.mem_cons.1 hdata with hd | hd
      · exact absurd (congrArg Prod.fst hd) (by decide)
      · exact hd
    · have hstep : mergeField (.obj dnsEntryFields) "data" (.str "bar")
          = .obj mergedEntryFields := rfl
      rw [hstep]
      exact mergeFields_merged kvs htail

/-- Claim C3, as amended: For the input `{"resources":[{"type":"dns_record",
"path":"resources.0","foo":"bar"}]}` and the `dns_record` transformer that returns the entry
with `foo` renamed to `data`, whatever the order in which the decoded replacement is visited,
`TransformState` returns the document whose single entry has `type`, `path`, `foo = "bar"`
and `data = "bar"`: the merge adds `data` and does not remove `foo`. -/
theorem rename_scenario_keeps_foo (decode : String → Option (List (String × Json)))
    (kvs : List (String × Json)) (name : String)
    (hdec : decode renamedText = some kvs)
    (hkvs : ∀ kv, kv ∈ kvs ↔ kv ∈ renamedFields) :
    Pipeline.TransformState (treeLib decode) (statePipelineOf renameRegistry) (.obj dnsFields) name =
      (some (.obj [("resources", .arr [.obj mergedEntryFields])]), none) := by
  rw [TransformState_tree decode (statePipelineOf renameRegistry) renameRegistry dnsFields
    [.obj dnsEntryFields] name rfl rfl rfl]
  have hff : firstFailure renameRegistry 0 [.obj dnsEntryFields] = none := rfl
  have hd : isDeleted renameRegistry 0 (.obj dnsEntryFields) = false := rfl
  have hk : kept decode renameRegistry 0 (.obj dnsEntryFields) = .obj mergedEntryFields := by
    unfold kept
    rw [renameFooToData_output]
    simp only [hdec]
    exact mergeFields_renamed kvs (fun kv h => (hkvs kv).1 h)
      ((hkvs _).2 (by simp [renamedFields]))
  rw [hff]
  simp only [survivors, hd, hk]
  rfl

/-- Witness for C3: the replacement decoded in the order `type`, `path`, `data`. -/
theorem rename_scenario_keeps_foo_witness :
    decodeOnly renamedText renamedFields renamedText = some renamedFields ∧
    (∀ kv, kv ∈ renamedFields ↔ kv ∈ renamedFields) ∧
    Pipeline.TransformState (treeLib (decodeOnly renamedText renamedFields))
        (statePipelineOf renameRegistry) (.obj dnsFields) "terraform.tfstate" =
      (some (.obj [("resources", .arr [.obj mergedEntryFields])]), none) :=
  ⟨rfl, fun _ => Iff.rfl,
    rename_scenario_keeps_foo (decodeOnly renamedText renamedFields) renamedFields
      "terraform.tfstate" rfl (fun _ => Iff.rfl)⟩

/-- Counterexample to C3 as stated: in the scenario the result is not the document whose
entry is `{"type":"dns_record","path":"resources.0","data":"bar"}`; the entry of the result
still has the field `foo` with value `"bar"`. -/
theorem rename_scenario_not_replaced :
    Pipeline.TransformState (treeLib (decodeOnly renamedText renamedFields))
        (statePipelineOf renameRegistry) (.obj dnsFields) "terraform.tfstate" ≠
      (some (.obj [("resources", .arr [.obj renamedFields])]), none) ∧
    ∃ out : Json,
      Pipeline.TransformState (treeLib (decodeOnly renamedText renamedFields))
          (statePipelineOf renameRegistry) (.obj dnsFields) "terraform.tfstate" =
        (some out, none) ∧
      getPath out ["resources", "0", "foo"] = some (.str "bar") ∧
      getPath out ["resources", "0", "data"] = some (.str "bar") := by
  have hr : Pipeline.TransformState (treeLib (decodeOnly renamedText renamedFields))
        (statePipelineOf renameRegistry) (.obj dnsFields) "terraform.tfstate" =
      (some (.obj [("resources", .arr [.obj mergedEntryFields])]), none) := rfl
  refine ⟨?_, _, hr, rfl, rfl⟩
  rw [hr]
  intro h
  have h1 := congrArg
    (fun r : Option Json × Option GoError =>
      (r.1.bind (fun j => getPath j ["resources", "0", "foo"])).isSome) h
  exact Bool.noConfusion h1


/-! ## Pass-through, abort and no-op -/

theorem visit_of_unregistered {Text : Type} (lib : JsonLib Text) (p : Pipeline) (result : Text)
    (i : Nat) (h : p.find (lib.Get result (resourcePathOf i ++ ".type")).Str = none) :
    visit lib p result i = .ok result := by
  unfold visit
  simp only [h]

theorem stateLoop_of_unregistered {Text : Type} (lib : JsonLib Text) (p : Pipeline)
    (content : Text) :
    ∀ n, (∀ j, j < n → p.find (lib.Get content (resourcePathOf j ++ ".type")).Str = none) →
      stateLoop lib p n content = .ok content := by
  intro n
  induction n with
  | zero => intro _; rfl
  | succ n ih =>
    intro h
    simp only [stateLoop]
    rw [visit_of_unregistered lib p content n (h n (by omega))]
    exact ih (fun j hj => h j (by omega))

theorem visit_of_undecodable {Text : Type} (lib : JsonLib Text) (p : Pipeline) (result : Text)
    (i : Nat) (t : ResourceTransformer) (s : String)
    (hfind : p.find (lib.Get result (resourcePathOf i ++ ".type")).Str = some t)
    (hout : t.TransformState (lib.Get result (resourcePathOf i)) (resourcePathOf i) = (s, none))
    (hne : s ≠ "") (hdec : lib.Unmarshal s = none ∨ lib.Unmarshal s = some []) :
    visit lib p result i = .ok result := by
  unfold visit
  rcases hdec with hdec | hdec
  · simp only [hfind, hout, hne, if_false, hdec]
  · simp only [hfind, hout, hne, if_false, hdec, List.foldl_nil]

/-- Claim C4: An entry whose declared type has no registered transformer is left as it is by
its visit, which is not an error, and (when no transformer fails on another entry) stands
in the result with its original value at its place among the survivors; and for any JSON
library, when no entry's type is registered, `TransformState` succeeds with exactly the
pretty-printing of the input. -/
theorem unregistered_entry_passes_through (decode : String → Option (List (String × Json)))
    (p : Pipeline) (reg : StrategyRegistry) (fs : List (String × Json)) (es : List Json)
    (name : String) (i : Nat) (e : Json)
    (hstate : p.isState = true) (hreg : p.registry = some reg)
    (hres : fs.lookup "resources" = some (.arr es))
    (hok : ∀ j e1, es[j]? = some e1 → failure reg j e1 = none)
    (hi : es[i]? = some e) (hfind : reg.Find (typeOf e) = none) :
    (∀ es1 : List Json, es1[i]? = some e →
      visit (treeLib decode) p (withResources fs es1) i = .ok (withResources fs es1)) ∧
    Pipeline.TransformState (treeLib decode) p (.obj fs) name =
      (some (withResources fs (survivors decode reg 0 (es.take i) ++
        e :: survivors decode reg (i + 1) (es.drop (i + 1)))), none) ∧
    ∀ (Text : Type) (lib : JsonLib Text) (q : Pipeline) (content : Text) (fname : String),
      q.isState = true → (lib.Get content "resources").Exists = true →
      (∀ j, j < (lib.Get content "resources").Array.length →
        q.find (lib.Get content (resourcePathOf j ++ ".type")).Str = none) →
      Pipeline.TransformState lib q content fname = (some (lib.Pretty content), none) := by
  have hsome : (fs.lookup "resources").isSome = true := by rw [hres]; rfl
  refine ⟨?_, ?_, ?_⟩
  · intro es1 h1
    apply visit_of_unregistered
    show p.find (treeGet (withResources fs es1) (resourcePathOf i ++ ".type")).Str = none
    rw [treeGet_type fs es1 i e hsome h1]
    simp [Pipeline.find, hreg, hfind]
  · rw [TransformState_tree decode p reg fs es name hstate hreg hres,
      firstFailure_eq_none reg es 0 (fun k e1 hk => by simpa using hok k e1 hk),
      survivors_split decode reg es i e hi (isDeleted_of_unregistered reg i e hfind),
      kept_of_unregistered decode reg i e hfind]
  · intro Text lib q content fname hq hex hnone
    unfold Pipeline.TransformState
    simp only [hq, hex, Bool.not_true, Bool.false_eq_true, if_false]
    rw [stateLoop_of_unregistered lib q content _ hnone]

/-- Witness for C4: with the registry that only knows type `b`, the entry of type `a` at
index 0 of the a-b-c document passes through. -/
theorem unregistered_entry_passes_through_witness :
    deleteBRegistry.Find (typeOf (entryOfType "a")) = none ∧
    Pipeline.TransformState (treeLib decodeNothing) (statePipelineOf deleteBRegistry) (.obj abcFields)
        "terraform.tfstate" =
      (some (withResources abcFields (survivors decodeNothing deleteBRegistry 0
        (abcEntries.take 0) ++ entryOfType "a" ::
          survivors decodeNothing deleteBRegistry 1 (abcEntries.drop 1))), none) ∧
    Pipeline.TransformState (treeLib decodeNothing) (statePipelineOf NewStrategyRegistry)
        (.obj abcFields) "terraform.tfstate" = (some (.obj abcFields), none) := by
  have h := unregistered_entry_passes_through decodeNothing (statePipelineOf deleteBRegistry)
    deleteBRegistry abcFields abcEntries "terraform.tfstate" 0 (entryOfType "a") rfl rfl rfl
    (fun j e1 _ => deleteBRegistry_never_fails j e1) rfl rfl
  exact ⟨rfl, h.2.1,
    h.2.2 Json (treeLib decodeNothing) (statePipelineOf NewStrategyRegistry) (.obj abcFields)
      "terraform.tfstate" rfl rfl (fun _ _ => rfl)⟩

/-- Claim C10: When the transformer registered for an entry returns, without error, a non-empty
text that does not decode as a JSON object (decoding fails, or, for the text `null`, gives
no field at all), the visit of the entry is not an error and leaves the document as it is
(for any JSON library), and (when no transformer fails on another entry) the entry stands
in the result with its original value at its place among the survivors. -/
theorem undecodable_replacement_is_ignored (decode : String → Option (List (String × Json)))
    (p : Pipeline) (reg : StrategyRegistry) (fs : List (String × Json)) (es : List Json)
    (name : String) (i : Nat) (e : Json) (t : ResourceTransformer) (s : String)
    (hstate : p.isState = true) (hreg : p.registry = some reg)
    (hres : fs.lookup "resources" = some (.arr es))
    (hok : ∀ j e1, es[j]? = some e1 → failure reg j e1 = none)
    (hi : es[i]? = some e) (hfind : reg.Find (typeOf e) = some t)
    (hout : t.TransformState (resultOf (some e)) (resourcePathOf i) = (s, none))
    (hne : s ≠ "") (hdec : decode s = none ∨ decode s = some []) :
    (∀ es1 : List Json, es1[i]? = some e →
      visit (treeLib decode) p (withResources fs es1) i = .ok (withResources fs es1)) ∧
    Pipeline.TransformState (treeLib decode) p (.obj fs) name =
      (some (withResources fs (survivors decode reg 0 (es.take i) ++
        e :: survivors decode reg (i + 1) (es.drop (i + 1)))), none) ∧
    ∀ (Text : Type) (lib : JsonLib Text) (q : Pipeline) (result : Text) (j : Nat)
      (t1 : ResourceTransformer) (s1 : String),
      q.find (lib.Get result (resourcePathOf j ++ ".type")).Str = some t1 →
      t1.TransformState (lib.Get result (resourcePathOf j)) (resourcePathOf j) = (s1, none) →
      s1 ≠ "" → (lib.Unmarshal s1 = none ∨ lib.Unmarshal s1 = some []) →
      visit lib q result j = .ok result := by
  have hsome : (fs.lookup "resources").isSome = true := by rw [hres]; rfl
  have hdel : isDeleted reg i e = false := by
    simp [isDeleted, transformerOutput, hfind, hout, hne]
  have hkept : kept decode reg i e = e := by
    rcases hdec with hdec | hdec
    · simp [kept, transformerOutput, hfind, hout, hdec]
    · simp [kept, transformerOutput, hfind, hout, hdec, mergeFields]
  refine ⟨?_, ?_, ?_⟩
  · intro es1 h1
    apply visit_of_undecodable (treeLib decode) p (withResources fs es1) i t s
    · show p.find (treeGet (withResources fs es1) (resourcePathOf i ++ ".type")).Str = some t
      rw [treeGet_type fs es1 i e hsome h1]
      simp [Pipeline.find, hreg, hfind]
    · show t.TransformState (treeGet (withResources fs es1) (resourcePathOf i))
        (resourcePathOf i) = (s, none)
      rw [treeGet_entry fs es1 i e hsome h1, hout]
    · exact hne
    · exact hdec
  · rw [TransformState_tree decode p reg fs es name hstate hreg hres,
      firstFailure_eq_none reg es 0 (fun k e1 hk => by simpa using hok k e1 hk),
      survivors_split decode reg es i e hi hdel, hkept]
  · intro Text lib q result j t1 s1 h1 h2 h3 h4
    exact visit_of_undecodable lib q result j t1 s1 h1 h2 h3 h4

/-- Witness for C10: the transformer returns the array text `[1]`; the entry is kept as it
was. -/
theorem undecodable_replacement_is_ignored_witness :
    arrayText ≠ "" ∧ decodeNothing arrayText = none ∧
    Pipeline.TransformState (treeLib decodeNothing) (statePipelineOf (replaceRegistry arrayText))
        (.obj oldFields) "terraform.tfstate" = (some (.obj oldFields), none) := by
  have h := undecodable_replacement_is_ignored decodeNothing
    (statePipelineOf (replaceRegistry arrayText)) (replaceRegistry arrayText) oldFields
    [.obj oldEntryFields] "terraform.tfstate" 0 (.obj oldEntryFields) (replaceWith arrayText)
    arrayText rfl rfl rfl (fun j e1 _ => replaceRegistry_never_fails _ j e1) rfl rfl rfl
    (by decide) (Or.inl rfl)
  exact ⟨by decide, rfl, h.2.1⟩

/-- A document whose "resources" exists but has no element (an empty array, or null) is not
returned as it is: the loop runs no iteration and the input is pretty-printed. -/
theorem empty_resources_is_pretty_printed {Text : Type} (lib : JsonLib Text) (p : Pipeline)
    (content : Text) (name : String) (hstate : p.isState = true)
    (hex : (lib.Get content "resources").Exists = true)
    (hempty : (lib.Get content "resources").Array = []) :
    Pipeline.TransformState lib p content name = (some (lib.Pretty content), none) := by
  unfold Pipeline.TransformState
  simp only [hstate, hex, hempty, Bool.not_true, Bool.false_eq_true, if_false, List.length_nil,
    stateLoop]

/-- What `BuildStatePipeline` returns: a pipeline without handler, with the registry, the flag
and `isState` set; the heap is not touched. -/
theorem BuildStatePipeline_eq (reg structReg : StrategyRegistry) (dryRun : Bool) (heap : Heap) :
    BuildStatePipeline reg dryRun structReg heap =
      (some { handler := none, registry := some reg, dryRun := dryRun, isState := true },
        heap) := rfl

/-- Claim C6: On a state pipeline, when the document has no "resources" (`gjson.Get` finds
nothing there), `TransformState` returns the input itself (not its pretty-printing) and no
error, for any JSON library and whatever the registry of the pipeline holds. -/
theorem no_resources_returns_input {Text : Type} (lib : JsonLib Text) (p : Pipeline)
    (content : Text) (name : String) (hstate : p.isState = true)
    (hno : (lib.Get content "resources").Exists = false) :
    Pipeline.TransformState lib p content name = (some content, none) ∧
    ∀ q : Pipeline, q.isState = true →
      Pipeline.TransformState lib q content name = Pipeline.TransformState lib p content name := by
  have h : ∀ q : Pipeline, q.isState = true →
      Pipeline.TransformState lib q content name = (some content, none) := by
    intro q hq
    unfold Pipeline.TransformState
    simp only [hq, hno, Bool.not_true, Bool.false_eq_true, if_false, Bool.not_false, if_true]
  exact ⟨h p hstate, fun q hq => by rw [h q hq, h p hstate]⟩

/-- Witness for C6: a document with only a version, and a registry whose transformer would
fail on anything. -/
theorem no_resources_returns_input_witness :
    (statePipelineOf failBRegistry).isState = true ∧
    (treeGet (.obj noResourcesFields) "resources").Exists = false ∧
    Pipeline.TransformState (treeLib decodeNothing) (statePipelineOf failBRegistry)
        (.obj noResourcesFields) "terraform.tfstate" = (some (.obj noResourcesFields), none) :=
  ⟨rfl, rfl,
    (no_resources_returns_input (treeLib decodeNothing) (statePipelineOf failBRegistry)
      (.obj noResourcesFields) "terraform.tfstate" rfl rfl).1⟩


/-! ## Abort on a transformer failure -/

theorem firstFailure_cases (reg : StrategyRegistry) (es : List Json) :
    ∀ s,
      (firstFailure reg s es = none ∧ ∀ k e, es[k]? = some e → failure reg (s + k) e = none) ∨
      (∃ j e1 cause1, es[j]? = some e1 ∧ failure reg (s + j) e1 = some cause1 ∧
        firstFailure reg s es =
          some (errorfW ("failed to transform " ++ typeOf e1 ++ " state: ") cause1) ∧
        ∀ k e, j < k → es[k]? = some e → failure reg (s + k) e = none) := by
  induction es with
  | nil =>
    intro s
    exact Or.inl ⟨rfl, fun k e h => by simp at h⟩
  | cons e0 rest ih =>
    intro s
    rw [firstFailure_cons]
    rcases ih (s + 1) with ⟨hnone, hall⟩ | ⟨j, e1, cause1, hj, hf, hff, hmax⟩
    · rw [hnone]
      cases h0 : failure reg s e0 with
      | none =>
        refine Or.inl ⟨rfl, ?_⟩
        intro k e hk
        cases k with
        | zero =>
          have : e0 = e := by simpa using hk
          subst this
          simpa using h0
        | succ k =>
          have := hall k e (by simpa using hk)
          rwa [show s + 1 + k = s + (k + 1) by omega] at this
      | some c =>
        refine Or.inr ⟨0, e0, c, by simp, by simpa using h0, rfl, ?_⟩
        intro k e hk hke
        cases k with
        | zero => omega
        | succ k =>
          have := hall k e (by simpa using hke)
          rwa [show s + 1 + k = s + (k + 1) by omega] at this
    · refine Or.inr ⟨j + 1, e1, cause1, by simpa using hj, ?_, ?_, ?_⟩
      · rwa [show s + 1 + j = s + (j + 1) by omega] at hf
      · rw [hff]
      · intro k e hk hke
        cases k with
        | zero => omega
        | succ k =>
          have := hmax k e (by omega) (by simpa using hke)
          rwa [show s + 1 + k = s + (k + 1) by omega] at this

theorem TransformState_shape {Text : Type} (lib : JsonLib Text) (q : Pipeline) (content : Text)
    (fname : String) :
    (∃ out, Pipeline.TransformState lib q content fname = (some out, none)) ∨
    (∃ err, Pipeline.TransformState lib q content fname = (none, some err)) := by
  unfold Pipeline.TransformState
  by_cases hq : q.isState = true
  · simp only [hq, Bool.not_true, Bool.false_eq_true, if_false]
    by_cases hex : (lib.Get content "resources").Exists = true
    · simp only [hex, Bool.not_true, Bool.false_eq_true, if_false]
      cases stateLoop lib q (lib.Get content "resources").Array.length content with
      | error e => exact Or.inr ⟨e, rfl⟩
      | ok r => exact Or.inl ⟨_, rfl⟩
    · simp only [hex, Bool.not_false, if_true]
      exact Or.inl ⟨_, rfl⟩
  · simp only [hq, Bool.not_false, if_true]
    exact Or.inr ⟨_, rfl⟩

theorem visit_of_total {Text : Type} (lib : JsonLib Text) (q : Pipeline)
    (hq : ∀ typeName t r path, q.find typeName = some t → (t.TransformState r path).2 = none)
    (result : Text) (i : Nat) : ∃ r, visit lib q result i = .ok r := by
  cases hf : q.find (lib.Get result (resourcePathOf i ++ ".type")).Str with
  | none => exact ⟨result, visit_of_unregistered lib q result i hf⟩
  | some t =>
    have h2 := hq _ t (lib.Get result (resourcePathOf i)) (resourcePathOf i) hf
    rcases hout : t.TransformState (lib.Get result (resourcePathOf i)) (resourcePathOf i)
      with ⟨s, err⟩
    rw [hout] at h2
    have herr : err = none := h2
    subst herr
    unfold visit
    simp only [hf, hout]
    by_cases hs : s = ""
    · simp only [hs, if_true]
      exact ⟨_, rfl⟩
    · simp only [hs, if_false]
      cases lib.Unmarshal s <;> exact ⟨_, rfl⟩

theorem stateLoop_of_total {Text : Type} (lib : JsonLib Text) (q : Pipeline)
    (hq : ∀ typeName t r path, q.find typeName = some t → (t.TransformState r path).2 = none) :
    ∀ n (result : Text), ∃ r, stateLoop lib q n result = .ok r := by
  intro n
  induction n with
  | zero => intro result; exact ⟨result, rfl⟩
  | succ n ih =>
    intro result
    obtain ⟨r1, h1⟩ := visit_of_total lib q hq result n
    simp only [stateLoop, h1]
    exact ih r1

/-- Claim C5: On a state pipeline, if the transformer registered for some entry returns an
error, `TransformState` returns no bytes and an error that wraps the error of a failing
transformer (the failing entry visited first, at that index or above) with the message
"failed to transform <type> state: <cause>"; if no transformer fails, it returns bytes and
no error; and for any JSON library it never returns bytes together with an error, and
returns no error on a state pipeline whose transformers never fail. -/
theorem transformer_failure_aborts (decode : String → Option (List (String × Json)))
    (p : Pipeline) (reg : StrategyRegistry) (fs : List (String × Json)) (es : List Json)
    (name : String) (hstate : p.isState = true) (hreg : p.registry = some reg)
    (hres : fs.lookup "resources" = some (.arr es)) :
    (∀ i e cause, es[i]? = some e → failure reg i e = some cause →
      ∃ j e1 cause1, i ≤ j ∧ es[j]? = some e1 ∧ failure reg j e1 = some cause1 ∧
        Pipeline.TransformState (treeLib decode) p (.obj fs) name =
          (none, some (.wrapped
            ("failed to transform " ++ typeOf e1 ++ " state: " ++ cause1.Error) cause1))) ∧
    ((∀ i e, es[i]? = some e → failure reg i e = none) →
      ∃ out, Pipeline.TransformState (treeLib decode) p (.obj fs) name = (some out, none)) ∧
    ∀ (Text : Type) (lib : JsonLib Text) (q : Pipeline) (content : Text) (fname : String),
      ((∃ out, Pipeline.TransformState lib q content fname = (some out, none)) ∨
        (∃ err, Pipeline.TransformState lib q content fname = (none, some err))) ∧
      (q.isState = true →
        (∀ typeName t r path, q.find typeName = some t →
          (t.TransformState r path).2 = none) →
        ∃ out, Pipeline.TransformState lib q content fname = (some out, none)) := by
  refine ⟨?_, ?_, fun Text lib q content fname =>
    ⟨TransformState_shape lib q content fname, ?_⟩⟩
  rotate_left 2
  · intro hq htotal
    unfold Pipeline.TransformState
    simp only [hq, Bool.not_true, Bool.false_eq_true, if_false]
    by_cases hex : (lib.Get content "resources").Exists = true
    · simp only [hex, Bool.not_true, Bool.false_eq_true, if_false]
      obtain ⟨r, hr⟩ := stateLoop_of_total lib q htotal
        (lib.Get content "resources").Array.length content
      rw [hr]
      exact ⟨_, rfl⟩
    · simp only [hex, Bool.not_false, if_true]
      exact ⟨_, rfl⟩
  · intro i e cause hi hf
    rcases firstFailure_cases reg es 0 with ⟨_, hall⟩ | ⟨j, e1, cause1, hj, hfj, hff, hmax⟩
    · have := hall i e hi
      rw [Nat.zero_add, hf] at this
      exact Option.noConfusion this
    · rw [Nat.zero_add] at hfj
      refine ⟨j, e1, cause1, ?_, hj, hfj, ?_⟩
      · by_contra hlt
        have := hmax i e (by omega) hi
        rw [Nat.zero_add, hf] at this
        exact Option.noConfusion this
      · rw [TransformState_tree decode p reg fs es name hstate hreg hres, hff]
        rfl
  · intro hok
    refine ⟨withResources fs (survivors decode reg 0 es), ?_⟩
    rw [TransformState_tree decode p reg fs es name hstate hreg hres,
      firstFailure_eq_none reg es 0 (fun k e hk => by simpa using hok k e hk)]

/-- Witness for C5: in the a-b-c document the transformer of type `b` fails with "boom". -/
theorem transformer_failure_aborts_witness :
    failure failBRegistry 1 (entryOfType "b") = some boom ∧
    (∃ j e1 cause1, 1 ≤ j ∧ abcEntries[j]? = some e1 ∧
      failure failBRegistry j e1 = some cause1 ∧
      Pipeline.TransformState (treeLib decodeNothing) (statePipelineOf failBRegistry) (.obj abcFields)
          "terraform.tfstate" =
        (none, some (.wrapped
          ("failed to transform " ++ typeOf e1 ++ " state: " ++ cause1.Error) cause1))) ∧
    Pipeline.TransformState (treeLib decodeNothing) (statePipelineOf failBRegistry) (.obj abcFields)
        "terraform.tfstate" =
      (none, some (.wrapped "failed to transform b state: boom" boom)) :=
  ⟨rfl,
    (transformer_failure_aborts decodeNothing (statePipelineOf failBRegistry) failBRegistry
      abcFields abcEntries "terraform.tfstate" rfl rfl rfl).1 1 (entryOfType "b") boom rfl rfl,
    rfl⟩


/-! ## The parse and format stages -/

theorem hasErrors_ne_nil (diags : List Diagnostic) (h : HasErrors diags = true) :
    ∃ d rest, diags = d :: rest := by
  cases diags with
  | nil => exact Bool.noConfusion h
  | cons d rest => exact ⟨d, rest, rfl⟩

theorem diagnosticsError_cons (d : Diagnostic) (rest : List Diagnostic) :
    DiagnosticsError (d :: rest) =
      d.Error ++ othersSuffix rest := by
  cases rest with
  | nil => simp [DiagnosticsError, othersSuffix]
  | cons r rs => simp only [DiagnosticsError, othersSuffix, String.append_assoc]

/-- Claim C7: The Parse stage: when parsing yields error diagnostics, there is at least one
diagnostic, they are appended to the context's diagnostics, the tree handle and everything
else stay as they were, the successor is not invoked (whatever `CallNext` would do, the
result is the same), and the error message is "failed to parse HCL: " followed by the
first diagnostic's message (and, when there are more, their count); otherwise the tree is
stored on the context and the result is exactly what `CallNext` returns on that context:
what the successor returns, and a success when there is no successor. -/
theorem parse_stage_contract {Bytes File : Type} (hcl : HclLib Bytes File)
    (callNext : TransformContext Bytes File → Handled Bytes File)
    (ctx : TransformContext Bytes File) :
    (HasErrors (hcl.ParseConfig ctx.Content ctx.Filename).2 = true →
      (∃ d rest, (hcl.ParseConfig ctx.Content ctx.Filename).2 = d :: rest ∧
        ParseHandler.Handle hcl callNext ctx =
          ({ ctx with Diagnostics := ctx.Diagnostics ++ d :: rest },
            some (.errorf ("failed to parse HCL: " ++ d.Error ++ othersSuffix rest)))) ∧
      ∀ other, ParseHandler.Handle hcl other ctx = ParseHandler.Handle hcl callNext ctx) ∧
    (HasErrors (hcl.ParseConfig ctx.Content ctx.Filename).2 = false →
      ParseHandler.Handle hcl callNext ctx =
        callNext
          { ctx with
            Diagnostics := ctx.Diagnostics ++ (hcl.ParseConfig ctx.Content ctx.Filename).2,
            AST := (hcl.ParseConfig ctx.Content ctx.Filename).1 } ∧
      (∀ successor, ParseHandler.Handle hcl (CallNext (some successor)) ctx =
        successor
          { ctx with
            Diagnostics := ctx.Diagnostics ++ (hcl.ParseConfig ctx.Content ctx.Filename).2,
            AST := (hcl.ParseConfig ctx.Content ctx.Filename).1 }) ∧
      ParseHandler.Handle hcl (CallNext none) ctx =
        ({ ctx with
            Diagnostics := ctx.Diagnostics ++ (hcl.ParseConfig ctx.Content ctx.Filename).2,
            AST := (hcl.ParseConfig ctx.Content ctx.Filename).1 }, none)) := by
  constructor
  · intro h
    obtain ⟨d, rest, hd⟩ := hasErrors_ne_nil _ h
    have hall : ∀ other, ParseHandler.Handle hcl other ctx =
        ({ ctx with Diagnostics := ctx.Diagnostics ++ d :: rest },
          some (.errorf ("failed to parse HCL: " ++ d.Error ++ othersSuffix rest))) := by
      intro other
      unfold ParseHandler.Handle
      simp only [h, if_true]
      rw [hd, diagnosticsError_cons, String.append_assoc]
    exact ⟨⟨d, rest, hd, hall callNext⟩, fun other => by rw [hall other, hall callNext]⟩
  · intro h
    have hgen : ∀ k : TransformContext Bytes File → Handled Bytes File,
        ParseHandler.Handle hcl k ctx =
          k { ctx with
              Diagnostics := ctx.Diagnostics ++ (hcl.ParseConfig ctx.Content ctx.Filename).2,
              AST := (hcl.ParseConfig ctx.Content ctx.Filename).1 } := by
      intro k
      unfold ParseHandler.Handle
      simp only [h, Bool.false_eq_true, if_false]
    exact ⟨hgen callNext, fun successor => hgen (CallNext (some successor)), hgen (CallNext none)⟩

/-- Witness for C7: the sample parser on the text `bad` and on the text `ok`. -/
theorem parse_stage_contract_witness :
    HasErrors (sampleHcl.ParseConfig (sampleCtx "bad").Content (sampleCtx "bad").Filename).2
      = true ∧
    ParseHandler.Handle sampleHcl (CallNext (some (FormatterHandler.Handle sampleHcl
        (CallNext none)))) (sampleCtx "bad") =
      ({ sampleCtx "bad" with Diagnostics := [sampleDiag] },
        some (.errorf "failed to parse HCL: main.tf:1,1-2: Invalid block; unexpected token")) ∧
    HasErrors (sampleHcl.ParseConfig (sampleCtx "ok").Content (sampleCtx "ok").Filename).2
      = false ∧
    ParseHandler.Handle sampleHcl (CallNext none) (sampleCtx "ok") =
      ({ sampleCtx "ok" with AST := some "ok" }, none) := by
  have h2 := (parse_stage_contract sampleHcl (CallNext none) (sampleCtx "ok")).2 rfl
  exact ⟨rfl, rfl, rfl, h2.2.2⟩

/-- Claim C9: The dry-run flag does not change what the core computes: `TransformState` on
`BuildStatePipeline(reg, true)` and on `BuildStatePipeline(reg, false)` (both exist) returns
the same bytes and error, as it does on any two pipelines that differ in the flag only; and
for two contexts that differ in the flag only, the Parse and Format stages produce the same
content, tree, diagnostics and error, handing to the successor contexts that again differ
in the flag only. -/
theorem dry_run_does_not_change_result {Text Bytes File : Type} (lib : JsonLib Text)
    (hcl : HclLib Bytes File) :
    (∀ (reg structReg : StrategyRegistry) (heap : Heap) (content : Text) (name : String),
      ∃ p1 p2, (BuildStatePipeline reg true structReg heap).1 = some p1 ∧
        (BuildStatePipeline reg false structReg heap).1 = some p2 ∧
        Pipeline.TransformState lib p1 content name = Pipeline.TransformState lib p2 content name) ∧
    (∀ (p : Pipeline) (b : Bool) (content : Text) (name : String),
      Pipeline.TransformState lib { p with dryRun := b } content name
        = Pipeline.TransformState lib p content name) ∧
    (∀ (callNext : TransformContext Bytes File → Handled Bytes File)
      (ctx : TransformContext Bytes File) (b : Bool),
      ParseHandler.Handle hcl callNext { ctx with DryRun := b } =
        match ParseHandler.Handle hcl (fun c => (c, none)) ctx with
        | (c, some e) => ({ c with DryRun := b }, some e)
        | (c, none) => callNext { c with DryRun := b }) ∧
    (∀ (callNext : TransformContext Bytes File → Handled Bytes File)
      (ctx : TransformContext Bytes File) (b : Bool),
      FormatterHandler.Handle hcl callNext { ctx with DryRun := b } =
        match FormatterHandler.Handle hcl (fun c => (c, none)) ctx with
        | (c, some e) => ({ c with DryRun := b }, some e)
        | (c, none) => callNext { c with DryRun := b }) ∧
    (∀ (ctx : TransformContext Bytes File) (b : Bool),
      ParseHandler.Handle hcl (CallNext none) { ctx with DryRun := b } =
        ({ (ParseHandler.Handle hcl (CallNext none) ctx).1 with DryRun := b },
          (ParseHandler.Handle hcl (CallNext none) ctx).2) ∧
      FormatterHandler.Handle hcl (CallNext none) { ctx with DryRun := b } =
        ({ (FormatterHandler.Handle hcl (CallNext none) ctx).1 with DryRun := b },
          (FormatterHandler.Handle hcl (CallNext none) ctx).2)) := by
  have hT : ∀ (p : Pipeline) (b : Bool) (content : Text) (name : String),
      Pipeline.TransformState lib { p with dryRun := b } content name
        = Pipeline.TransformState lib p content name := by
    intro p b content name
    have hloop : ∀ n (r : Text), stateLoop lib { p with dryRun := b } n r = stateLoop lib p n r := by
      intro n
      induction n with
      | zero => intro r; rfl
      | succ n ih =>
        intro r
        simp only [stateLoop]
        have hv : visit lib { p with dryRun := b } r n = visit lib p r n := rfl
        rw [hv]
        cases visit lib p r n with
        | error e => rfl
        | ok r1 => exact ih r1
    unfold Pipeline.TransformState
    simp only [hloop]
  have hP : ∀ (callNext : TransformContext Bytes File → Handled Bytes File)
      (ctx : TransformContext Bytes File) (b : Bool),
      ParseHandler.Handle hcl callNext { ctx with DryRun := b } =
        match ParseHandler.Handle hcl (fun c => (c, none)) ctx with
        | (c, some e) => ({ c with DryRun := b }, some e)
        | (c, none) => callNext { c with DryRun := b } := by
    intro callNext ctx b
    unfold ParseHandler.Handle
    by_cases h : HasErrors (hcl.ParseConfig ctx.Content ctx.Filename).2 = true
    · simp only [h, if_true]
    · simp only [h, Bool.false_eq_true, if_false]
  have hF : ∀ (callNext : TransformContext Bytes File → Handled Bytes File)
      (ctx : TransformContext Bytes File) (b : Bool),
      FormatterHandler.Handle hcl callNext { ctx with DryRun := b } =
        match FormatterHandler.Handle hcl (fun c => (c, none)) ctx with
        | (c, some e) => ({ c with DryRun := b }, some e)
        | (c, none) => callNext { c with DryRun := b } := by
    intro callNext ctx b
    unfold FormatterHandler.Handle
    cases h : ctx.AST with
    | none => simp only [h]
    | some ast => simp only [h]
  refine ⟨?_, hT, hP, hF, ?_⟩
  · intro reg structReg heap content name
    refine ⟨_, _, rfl, rfl, ?_⟩
    exact hT { handler := none, registry := some reg, dryRun := false, isState := true } true
      content name
  · intro ctx b
    have hnone : (CallNext none : TransformContext Bytes File → Handled Bytes File)
        = fun c => (c, none) := rfl
    constructor
    · rw [hP (CallNext none) ctx b, hnone]
      rcases h : ParseHandler.Handle hcl (fun c => (c, none)) ctx with ⟨c, e⟩
      cases e <;> rfl
    · rw [hF (CallNext none) ctx b, hnone]
      rcases h : FormatterHandler.Handle hcl (fun c => (c, none)) ctx with ⟨c, e⟩
      cases e <;> rfl


/-! ## The builder -/

theorem SetNext_length (heap : Heap) (a n : Nat) : (SetNext heap a n).length = heap.length := by
  unfold SetNext
  cases heap[a]? <;> simp

theorem nextOf_SetNext_self (heap : Heap) (a n : Nat) (h : a < heap.length) :
    nextOf (SetNext heap a n) a = some n := by
  unfold nextOf SetNext
  rw [List.getElem?_eq_getElem h]
  simp [List.getElem?_set_self h]

theorem getElem?_SetNext_ne (heap : Heap) (a n c : Nat) (h : c ≠ a) :
    (SetNext heap a n)[c]? = heap[c]? := by
  unfold SetNext
  cases heap[a]? with
  | none => rfl
  | some o => simp [List.getElem?_set_ne (Ne.symm h)]

theorem nextOf_SetNext_ne (heap : Heap) (a n c : Nat) (h : c ≠ a) :
    nextOf (SetNext heap a n) c = nextOf heap c := by
  unfold nextOf
  rw [getElem?_SetNext_ne heap a n c h]

theorem kind_SetNext (heap : Heap) (a n c : Nat) :
    (SetNext heap a n)[c]?.map (fun o => o.kind) = heap[c]?.map (fun o => o.kind) := by
  by_cases h : c = a
  · subst h
    unfold SetNext
    cases hc : heap[c]? with
    | none => simp [hc]
    | some o =>
      have hlt : c < heap.length := by
        rcases List.getElem?_eq_some.1 hc with ⟨hlt, _⟩
        exact hlt
      simp [List.getElem?_set_self hlt]
  · rw [getElem?_SetNext_ne heap a n c h]

theorem linkHandlers_cons_cons (a b : Nat) (rest : List Nat) (heap : Heap) :
    linkHandlers (a :: b :: rest) heap = linkHandlers (b :: rest) (SetNext heap a b) := rfl

theorem linkHandlers_length (hs : List Nat) :
    ∀ heap : Heap, (linkHandlers hs heap).length = heap.length := by
  induction hs with
  | nil => intro heap; rfl
  | cons a tl ih =>
    intro heap
    cases tl with
    | nil => rfl
    | cons b rest => rw [linkHandlers_cons_cons, ih, SetNext_length]

theorem linkHandlers_kind (hs : List Nat) :
    ∀ (heap : Heap) (c : Nat),
      (linkHandlers hs heap)[c]?.map (fun o => o.kind) = heap[c]?.map (fun o => o.kind) := by
  induction hs with
  | nil => intro heap c; rfl
  | cons a tl ih =>
    intro heap c
    cases tl with
    | nil => rfl
    | cons b rest => rw [linkHandlers_cons_cons, ih, kind_SetNext]

theorem linkHandlers_next_outside (hs : List Nat) :
    ∀ (heap : Heap) (c : Nat), c ∉ hs.dropLast →
      nextOf (linkHandlers hs heap) c = nextOf heap c := by
  induction hs with
  | nil => intro heap c _; rfl
  | cons a tl ih =>
    intro heap c hc
    cases tl with
    | nil => rfl
    | cons b rest =>
      rw [List.dropLast_cons₂, List.mem_cons, not_or] at hc
      rw [linkHandlers_cons_cons, ih _ c hc.2, nextOf_SetNext_ne heap a b c hc.1]

theorem mem_of_mem_dropLast (hs : List Nat) (c : Nat) (h : c ∈ hs.dropLast) : c ∈ hs :=
  (List.dropLast_subset hs) h

theorem linkHandlers_next_inside (hs : List Nat) :
    ∀ (heap : Heap), hs.Nodup → (∀ a ∈ hs, a < heap.length) →
      ∀ i a c, hs[i]? = some a → hs[i + 1]? = some c →
        nextOf (linkHandlers hs heap) a = some c := by
  induction hs with
  | nil => intro heap _ _ i a c h; simp at h
  | cons a0 tl ih =>
    intro heap hnd hvalid i a c hi hc
    cases tl with
    | nil => simp at hc
    | cons b0 rest =>
      rw [linkHandlers_cons_cons]
      rw [List.nodup_cons] at hnd
      cases i with
      | zero =>
        have ha : a0 = a := by simpa using hi
        have hb : b0 = c := by simpa using hc
        subst ha hb
        rw [linkHandlers_next_outside _ _ a0
          (fun hm => hnd.1 (mem_of_mem_dropLast _ _ hm))]
        exact nextOf_SetNext_self heap a0 b0 (hvalid a0 (by simp))
      | succ k =>
        refine ih (SetNext heap a0 b0) hnd.2 ?_ k a c (by simpa using hi) (by simpa using hc)
        intro x hx
        rw [SetNext_length]
        exact hvalid x (List.mem_cons_of_mem _ hx)

theorem getLast?_not_mem_dropLast (hs : List Nat) (a : Nat) (hnd : hs.Nodup)
    (h : hs.getLast? = some a) : a ∉ hs.dropLast := by
  induction hs with
  | nil => simp at h
  | cons x tl ih =>
    cases tl with
    | nil => simp
    | cons y rest =>
      rw [List.nodup_cons] at hnd
      rw [List.dropLast_cons₂, List.mem_cons, not_or]
      have hlast : (y :: rest).getLast? = some a := by
        simpa [List.getLast?_cons_cons] using h
      refine ⟨?_, ih hnd.2 hlast⟩
      intro hax
      subst hax
      exact hnd.1 (List.mem_of_getLast?_eq_some hlast)


theorem getElem?_append_add (heap l : Heap) (k : Nat) :
    (heap ++ l)[heap.length + k]? = l[k]? := by
  rw [List.getElem?_append_right (by omega)]
  congr 1
  omega

theorem chainStages_step (heap : Heap) (fuel a : Nat) (k : HandlerKind) (nx : Option Nat)
    (hk : heap[a]?.map (fun o => o.kind) = some k) (hn : nextOf heap a = nx) :
    chainStages heap (fuel + 1) (some a) = k.stage :: chainStages heap fuel nx := by
  unfold nextOf at hn
  cases ho : heap[a]? with
  | none => rw [ho] at hk; exact Option.noConfusion hk
  | some o =>
    rw [ho] at hk hn
    simp only [Option.map_some', Option.some.injEq] at hk
    have hn1 : o.next = nx := hn
    simp only [chainStages, ho, hk, hn1]

theorem buildPipeline_chain (reg : StrategyRegistry) (k2 : HandlerKind) (heap0 : Heap)
    (h2 : k2.stage = .transform) :
    chainStages
      (linkHandlers [heap0.length, heap0.length + 1, heap0.length + 2, heap0.length + 3]
        (heap0 ++ [{ kind := .PreprocessHandler reg, next := none },
          { kind := .ParseHandler, next := none }, { kind := k2, next := none },
          { kind := .FormatterHandler, next := none }]))
      5 (some heap0.length) = [.preprocess, .parse, .transform, .format] := by
  set hs := [heap0.length, heap0.length + 1, heap0.length + 2, heap0.length + 3] with hhs
  set heap4 : Heap := heap0 ++ [{ kind := .PreprocessHandler reg, next := none },
    { kind := .ParseHandler, next := none }, { kind := k2, next := none },
    { kind := .FormatterHandler, next := none }] with hheap4
  have hnd : hs.Nodup := by simp [hhs]
  have hvalid : ∀ a ∈ hs, a < heap4.length := by
    intro a ha
    simp only [hhs, List.mem_cons, List.mem_singleton, List.not_mem_nil, or_false] at ha
    simp only [hheap4, List.length_append, List.length_cons, List.length_nil]
    omega
  have hnext := linkHandlers_next_inside hs heap4 hnd hvalid
  have hkind := linkHandlers_kind hs heap4
  have e0 : heap4[heap0.length]? = some { kind := .PreprocessHandler reg, next := none } := by
    have := getElem?_append_add heap0 [{ kind := .PreprocessHandler reg, next := none },
      { kind := .ParseHandler, next := none }, { kind := k2, next := none },
      { kind := .FormatterHandler, next := none }] 0
    rw [Nat.add_zero] at this
    exact this
  have e1 : heap4[heap0.length + 1]? = some { kind := .ParseHandler, next := none } :=
    getElem?_append_add heap0 _ 1
  have e2 : heap4[heap0.length + 2]? = some { kind := k2, next := none } :=
    getElem?_append_add heap0 _ 2
  have e3 : heap4[heap0.length + 3]? = some { kind := .FormatterHandler, next := none } :=
    getElem?_append_add heap0 _ 3
  have hlast : nextOf (linkHandlers hs heap4) (heap0.length + 3) = none := by
    rw [linkHandlers_next_outside hs heap4 (heap0.length + 3)
      (getLast?_not_mem_dropLast hs _ hnd (by simp [hhs]))]
    simp [nextOf, e3]
  rw [chainStages_step _ 4 heap0.length (.PreprocessHandler reg) (some (heap0.length + 1))
      (by rw [hkind, e0]; rfl) (hnext 0 _ _ (by simp [hhs]) (by simp [hhs])),
    chainStages_step _ 3 (heap0.length + 1) .ParseHandler (some (heap0.length + 2))
      (by rw [hkind, e1]; rfl) (hnext 1 _ _ (by simp [hhs]) (by simp [hhs])),
    chainStages_step _ 2 (heap0.length + 2) k2 (some (heap0.length + 3))
      (by rw [hkind, e2]; rfl) (hnext 2 _ _ (by simp [hhs]) (by simp [hhs])),
    chainStages_step _ 1 (heap0.length + 3) .FormatterHandler none
      (by rw [hkind, e3]; rfl) hlast, h2]
  rfl

theorem addAll_spec (kinds : List HandlerKind) :
    ∀ (b : PipelineBuilder) (heap : Heap),
      PipelineBuilder.addAll kinds b heap =
        ({ b with handlers := b.handlers ++ List.range' heap.length kinds.length },
          heap ++ kinds.map (fun k => { kind := k, next := none })) := by
  induction kinds with
  | nil => intro b heap; simp [PipelineBuilder.addAll]
  | cons k kinds ih =>
    intro b heap
    simp only [PipelineBuilder.addAll, PipelineBuilder.addFresh, alloc, ih, List.length_append,
      List.length_singleton, List.length_cons, List.length_nil, Nat.zero_add, List.map_cons,
      List.append_assoc, List.singleton_append, List.range'_succ]

theorem chain_of_fresh (kinds : List HandlerKind) (heap0 : Heap) :
    ∀ d j, j + d = kinds.length →
      chainStages
        (linkHandlers (List.range' heap0.length kinds.length)
          (heap0 ++ kinds.map (fun k => { kind := k, next := none })))
        (d + 1) (if j < kinds.length then some (heap0.length + j) else none)
      = (kinds.drop j).map HandlerKind.stage := by
  set hs := List.range' heap0.length kinds.length with hhs
  set heap1 : Heap := heap0 ++ kinds.map (fun k => { kind := k, next := none }) with hheap1
  have hnd : hs.Nodup := List.nodup_range' _ _
  have hvalid : ∀ a ∈ hs, a < heap1.length := by
    intro a ha
    rw [hhs, List.mem_range'_1] at ha
    simp only [hheap1, List.length_append, List.length_map]
    omega
  have hnext := linkHandlers_next_inside hs heap1 hnd hvalid
  have hkind := linkHandlers_kind hs heap1
  have hget : ∀ j (hj : j < kinds.length),
      heap1[heap0.length + j]? = some { kind := kinds[j], next := none } := by
    intro j hj
    rw [hheap1, getElem?_append_add, List.getElem?_map, List.getElem?_eq_getElem hj]
    rfl
  have hidx : ∀ j, j < kinds.length → hs[j]? = some (heap0.length + j) := by
    intro j hj
    rw [hhs, List.getElem?_range' _ _ hj, Nat.one_mul]
  intro d
  induction d with
  | zero =>
    intro j hj
    have hjm : ¬ j < kinds.length := by omega
    rw [if_neg hjm, List.drop_eq_nil_of_le (by omega)]
    rfl
  | succ d ih =>
    intro j hj
    have hjm : j < kinds.length := by omega
    rw [if_pos hjm]
    have hnx : nextOf (linkHandlers hs heap1) (heap0.length + j)
        = if j + 1 < kinds.length then some (heap0.length + (j + 1)) else none := by
      by_cases h1 : j + 1 < kinds.length
      · rw [if_pos h1]
        exact hnext j _ _ (hidx j hjm) (hidx (j + 1) h1)
      · rw [if_neg h1]
        have hlast : hs.getLast? = some (heap0.length + j) := by
          rw [hhs, List.getLast?_range', if_neg (by omega)]
          congr 1
          omega
        rw [linkHandlers_next_outside hs heap1 _ (getLast?_not_mem_dropLast hs _ hnd hlast)]
        simp [nextOf, hget j hjm]
    rw [chainStages_step _ (d + 1) (heap0.length + j) kinds[j] _
      (by rw [hkind, hget j hjm]; rfl) hnx, ih (j + 1) (by omega),
      List.drop_eq_getElem_cons hjm]
    rfl

/-- Claim C8: `Build` on a builder without handlers returns no pipeline.  On a builder with
n >= 1 handlers, pairwise distinct objects of the heap, it returns a pipeline whose entry
handler is the first one added, and afterwards the successor of the i-th handler added is
the (i+1)-th for every i < n-1, the successor of the last one is what it was before (none
for a freshly created handler) and every handler has the stage it had.  For a non-state
pipeline `BuildPipelineWithOptions` returns a pipeline whose chain, from its entry handler,
is preprocess, parse, transform, format and ends there. -/
theorem build_links_stages_in_order (b : PipelineBuilder) (heap : Heap) :
    (b.handlers = [] → b.Build heap = (none, heap)) ∧
    (b.handlers ≠ [] → b.handlers.Nodup → (∀ a ∈ b.handlers, a < heap.length) →
      (∃ p, (b.Build heap).1 = some p ∧ p.handler = b.handlers.head? ∧
        p.registry = b.registry) ∧
      (∀ i a c, b.handlers[i]? = some a → b.handlers[i + 1]? = some c →
        nextOf (b.Build heap).2 a = some c) ∧
      (∀ a, b.handlers.getLast? = some a → nextOf (b.Build heap).2 a = nextOf heap a) ∧
      (∀ a, stageOf (b.Build heap).2 a = stageOf heap a)) ∧
    (∀ (kinds : List HandlerKind) (heap0 : Heap), kinds ≠ [] →
      ∃ p, ((PipelineBuilder.addAll kinds NewPipelineBuilder heap0).1.Build
          (PipelineBuilder.addAll kinds NewPipelineBuilder heap0).2).1 = some p ∧
        p.handler = some heap0.length ∧
        chainStages ((PipelineBuilder.addAll kinds NewPipelineBuilder heap0).1.Build
          (PipelineBuilder.addAll kinds NewPipelineBuilder heap0).2).2
          (kinds.length + 1) p.handler = kinds.map HandlerKind.stage) ∧
    (∀ (reg structReg : StrategyRegistry) (opts : PipelineOptions) (heap0 : Heap),
      opts.IsState = false →
      ∃ p, (BuildPipelineWithOptions reg opts structReg heap0).1 = some p ∧
        p.handler = some heap0.length ∧ p.dryRun = opts.DryRun ∧ p.isState = false ∧
        chainStages (BuildPipelineWithOptions reg opts structReg heap0).2 5 p.handler
          = [.preprocess, .parse, .transform, .format]) := by
  refine ⟨?_, ?_, ?_, ?_⟩
  · intro h
    simp [PipelineBuilder.Build, h]
  · intro hne hnd hvalid
    cases hh : b.handlers with
    | nil => exact absurd hh hne
    | cons first rest =>
      have hB : b.Build heap =
          (some { handler := some first, registry := b.registry, dryRun := false,
                  isState := false }, linkHandlers (first :: rest) heap) := by
        simp [PipelineBuilder.Build, hh]
      rw [hh] at hnd hvalid
      rw [hB]
      refine ⟨⟨_, rfl, rfl, rfl⟩, ?_, ?_, ?_⟩
      · exact linkHandlers_next_inside (first :: rest) heap hnd hvalid
      · intro a ha
        exact linkHandlers_next_outside (first :: rest) heap a
          (getLast?_not_mem_dropLast (first :: rest) a hnd ha)
      · intro a
        unfold stageOf
        have := linkHandlers_kind (first :: rest) heap a
        cases h1 : (linkHandlers (first :: rest) heap)[a]? <;> cases h2 : heap[a]? <;>
          simp_all
  · intro kinds heap0 hne
    rw [addAll_spec]
    cases hk : kinds with
    | nil => exact absurd hk hne
    | cons k ks =>
      have hchain := chain_of_fresh (k :: ks) heap0 (k :: ks).length 0 (by simp)
      rw [if_pos (by simp), List.drop_zero, Nat.add_zero] at hchain
      refine ⟨{ handler := some heap0.length, registry := none, dryRun := false,
                isState := false }, ?_, rfl, ?_⟩
      · simp [PipelineBuilder.Build, NewPipelineBuilder, List.range'_succ]
      · simpa [PipelineBuilder.Build, NewPipelineBuilder, List.range'_succ] using hchain
  · intro reg structReg opts heap0 hstate
    cases hmode : opts.UseStructMode with
    | true =>
      refine ⟨{ handler := some heap0.length, registry := none, dryRun := opts.DryRun,
                isState := false }, ?_, rfl, rfl, rfl, ?_⟩
      · simp [BuildPipelineWithOptions, hstate, hmode, NewPipelineBuilder,
          PipelineBuilder.WithPreprocessing, PipelineBuilder.WithParsing,
          PipelineBuilder.WithStructTransformation, PipelineBuilder.WithFormatting,
          PipelineBuilder.Build, PipelineBuilder.addFresh, alloc]
      · have := buildPipeline_chain reg (.StructTransformHandler structReg) heap0 rfl
        simpa [BuildPipelineWithOptions, hstate, hmode, NewPipelineBuilder,
          PipelineBuilder.WithPreprocessing, PipelineBuilder.WithParsing,
          PipelineBuilder.WithStructTransformation, PipelineBuilder.WithFormatting,
          PipelineBuilder.Build, PipelineBuilder.addFresh, alloc] using this
    | false =>
      refine ⟨{ handler := some heap0.length, registry := some reg, dryRun := opts.DryRun,
                isState := false }, ?_, rfl, rfl, rfl, ?_⟩
      · simp [BuildPipelineWithOptions, hstate, hmode, NewPipelineBuilder,
          PipelineBuilder.WithPreprocessing, PipelineBuilder.WithParsing,
          PipelineBuilder.WithResourceTransformation, PipelineBuilder.WithFormatting,
          PipelineBuilder.Build, PipelineBuilder.addFresh, alloc]
      · have := buildPipeline_chain reg (.ResourceTransformHandler reg) heap0 rfl
        simpa [BuildPipelineWithOptions, hstate, hmode, NewPipelineBuilder,
          PipelineBuilder.WithPreprocessing, PipelineBuilder.WithParsing,
          PipelineBuilder.WithResourceTransformation, PipelineBuilder.WithFormatting,
          PipelineBuilder.Build, PipelineBuilder.addFresh, alloc] using this


/-- Witness for C8: two existing handlers added in the order parse, formatter; and the text
pipeline built on an empty heap. -/
theorem build_links_stages_in_order_witness :
    twoBuilder.handlers ≠ [] ∧ twoBuilder.handlers.Nodup ∧
    (∀ a ∈ twoBuilder.handlers, a < twoHandlers.length) ∧
    nextOf (twoBuilder.Build twoHandlers).2 0 = some 1 ∧
    nextOf (twoBuilder.Build twoHandlers).2 1 = none ∧
    chainStages (BuildPipelineWithOptions NewStrategyRegistry {} NewStrategyRegistry []).2 5
      (some 0) = [.preprocess, .parse, .transform, .format] := by
  have hne : twoBuilder.handlers ≠ [] := by decide
  have hnd : twoBuilder.handlers.Nodup := by decide
  have hvalid : ∀ a ∈ twoBuilder.handlers, a < twoHandlers.length := by decide
  have h := (build_links_stages_in_order twoBuilder twoHandlers).2.1 hne hnd hvalid
  exact ⟨hne, hnd, hvalid, h.2.1 0 0 1 rfl rfl, rfl, rfl⟩

end MigrateV2
